import Mathlib

/-!
# DistriShop: order creation and retrieval

A shallow embedding of the order service of DistriShop (`order/server.go`,
`order/service.go`, `order/repository.go`), of the order client
(`order/client.go`), of the gateway's `CreateOrder` resolver
(`graphql/mutation_resolver.go`) and of the product listing of the catalog
service (`catalog/client.go`, `catalog/server.go`, `catalog/service.go`).

Modelling conventions.

* Go `error` values are strings; a Go function returning `(T, error)` returns
  `Except Err T`, one returning only `error` returns `Option Err`.
* `float64` is the type `F64`: a finite value is the rational it stands for (the
  two zeros are one value), beside the two infinities and not-a-number; `+` and
  `*` round the exact result to the nearest `float64`, ties to even, and in
  `total += price * float64(quantity)` the product and the sum are rounded one
  after the other, as compiled for amd64 (no fused multiply-add).
* `int` is `Int`; a `uint32` field holds a natural number below `2 ^ 32`, and the
  conversion `uint32(x)` of an `int` reduces modulo `2 ^ 32`.
* `time.Time` is an integer instant; a larger instant is a later one.
* An error returned by a remote handler reaches the calling client as that
  error.
* The remote account and catalog services are oracles whose answer may depend on
  every call made before (`World.calls`), so two lookups of one product may see
  different prices.
* The SQL database is explicit state: committed rows plus the list of
  transactions with their pending writes; a fault plan says which driver call
  fails.
-/

set_option autoImplicit false

namespace DistriShop

/-- Go `error` values. -/
abbrev Err := String

/-- Instants of `time.Time`, ordered chronologically. -/
abbrev Time := Int

/-! ## `float64` -/

/-- A `float64` value: a finite one is given by the rational it stands for. -/
inductive F64 where
  | fin (q : ℚ)
  | posInf
  | negInf
  | nan
deriving DecidableEq, Repr

namespace F64

/-- Rounding to the nearest integer, a tie going to the even neighbour. -/
def roundHalfEven (x : ℚ) : Int :=
  if x - (⌊x⌋ : ℚ) < 1 / 2 then ⌊x⌋
  else if 1 / 2 < x - (⌊x⌋ : ℚ) then ⌊x⌋ + 1
  else if ⌊x⌋ % 2 = 0 then ⌊x⌋ else ⌊x⌋ + 1

/-- The `float64` nearest to the rational `q` (binary64: 53 significant bits, least exponent
`-1022` with gradual underflow, overflow to an infinity from `2 ^ 1024` on). With
`2 ^ e ≤ |q| < 2 ^ (e + 1)` the spacing of the values around `|q|` is `2 ^ (e - 52)`. -/
def ofRat (q : ℚ) : F64 :=
  if q = 0 then fin 0
  else
    let e : Int := max (Int.log 2 |q|) (-1022)
    let r : ℚ := (roundHalfEven (|q| / (2 : ℚ) ^ (e - 52)) : ℚ) * (2 : ℚ) ^ (e - 52)
    if (2 : ℚ) ^ (1024 : Int) ≤ r then (if q < 0 then negInf else posInf)
    else fin (if q < 0 then -r else r)

/-- The product `a * b` of two `float64` values. -/
def mul : F64 → F64 → F64
  | fin a, fin b => ofRat (a * b)
  | fin a, posInf => if a = 0 then nan else if 0 < a then posInf else negInf
  | fin a, negInf => if a = 0 then nan else if 0 < a then negInf else posInf
  | posInf, fin b => if b = 0 then nan else if 0 < b then posInf else negInf
  | negInf, fin b => if b = 0 then nan else if 0 < b then negInf else posInf
  | posInf, posInf => posInf
  | posInf, negInf => negInf
  | negInf, posInf => negInf
  | negInf, negInf => posInf
  | nan, _ => nan
  | _, nan => nan

/-- The sum `a + b` of two `float64` values. -/
def add : F64 → F64 → F64
  | fin a, fin b => ofRat (a + b)
  | fin _, posInf => posInf
  | fin _, negInf => negInf
  | posInf, fin _ => posInf
  | negInf, fin _ => negInf
  | posInf, posInf => posInf
  | negInf, negInf => negInf
  | posInf, negInf => nan
  | negInf, posInf => nan
  | nan, _ => nan
  | _, nan => nan

/-- `float64(x)` for a `uint32` `x`: every `uint32` is a `float64`. -/
def ofUint32 (n : Nat) : F64 := fin (n : ℚ)

end F64

namespace account

/-- `account.Account`. -/
structure Account where
  ID : String
  Name : String
deriving DecidableEq, Repr

end account

namespace catalog

/-- `catalog.Product` (`catalog/service.go`). -/
structure Product where
  ID : String
  Name : String
  Description : String
  Price : F64
deriving DecidableEq, Repr

end catalog

namespace order

/-- `order.OrderedProduct` (`order/service.go`). -/
structure OrderedProduct where
  ProductID : String
  Quantity : Int
deriving DecidableEq, Repr

/-- `order.Order` (`order/service.go`). -/
structure Order where
  ID : String
  AccountID : String
  CreatedAt : Time
  Total : F64
  Products : List OrderedProduct
deriving DecidableEq, Repr

namespace pb

/-- `pb.PostOrderRequest_OrderProduct`: `Quantity` is a `uint32`. -/
structure PostOrderRequest_OrderProduct where
  ProductId : String
  Quantity : Nat
deriving DecidableEq, Repr

/-- `pb.PostOrderRequest`. -/
structure PostOrderRequest where
  AccountId : String
  Products : List PostOrderRequest_OrderProduct
deriving DecidableEq, Repr

/-- `pb.OrderedProduct`: an enriched line item, `Quantity` is a `uint32`. -/
structure OrderedProduct where
  Id : String
  Name : String
  Description : String
  Price : F64
  Quantity : Nat
deriving DecidableEq, Repr

/-- `pb.Order`; `CreatedAt` stands for the bytes of `MarshalBinary`, which determine the instant. -/
structure Order where
  Id : String
  AccountId : String
  Total : F64
  CreatedAt : Time
  Products : List OrderedProduct
deriving DecidableEq, Repr

/-- `pb.PostOrderResponse`. -/
structure PostOrderResponse where
  Order : Order
deriving DecidableEq, Repr

/-- `pb.GetOrderForAccountRequest`. -/
structure GetOrderForAccountRequest where
  AccountId : String
deriving DecidableEq, Repr

/-- `pb.GetOrderForAccountResponse`. -/
structure GetOrderForAccountResponse where
  Orders : List Order
deriving DecidableEq, Repr

end pb

/-! ## The database -/

/-- A row of table `orders` (id, account_id, created_at, total_price). -/
structure HeaderRow where
  id : String
  accountID : String
  createdAt : Time
  totalPrice : F64
deriving DecidableEq, Repr

/-- A row of table `order_products` (order_id, product_id, quantity). -/
structure ItemRow where
  orderID : String
  productID : String
  quantity : Int
deriving DecidableEq, Repr

/-- State of a `sql.Tx`. -/
inductive TxStatus where
  | begun
  | committed
  | rolledBack
deriving DecidableEq, Repr

/-- A transaction with the rows it has written so far. -/
structure Tx where
  status : TxStatus
  headers : List HeaderRow
  items : List ItemRow
deriving DecidableEq, Repr

/-- The order database: the committed rows of both tables, and every transaction started. -/
structure DB where
  orders : List HeaderRow
  orderProducts : List ItemRow
  txs : List Tx
deriving DecidableEq, Repr

/-- Which driver call of one `PutOrder` fails, and with what error. -/
structure Faults where
  begin : Option Err
  header : Option Err
  prepare : Option Err
  exec : Nat → Option Err
  flush : Option Err

/-- The fault plan in which every driver call succeeds. -/
def Faults.none : Faults :=
  { begin := Option.none, header := Option.none, prepare := Option.none,
    exec := fun _ => Option.none, flush := Option.none }

/-- `tx.Rollback()`: the transaction ends and none of its rows becomes visible. -/
def Tx.Rollback (t : Tx) : Tx :=
  { t with status := TxStatus.rolledBack }

/-- `tx.Commit()` on a database whose open transaction is `t`: its rows become visible. -/
def DB.Commit (db : DB) (t : Tx) : DB :=
  { orders := db.orders ++ t.headers,
    orderProducts := db.orderProducts ++ t.items,
    txs := db.txs ++ [{ t with status := TxStatus.committed }] }

/-- A transaction that ends without commit is recorded with the state it was left in. -/
def DB.leave (db : DB) (t : Tx) : DB :=
  { db with txs := db.txs ++ [t] }

/-- The loop `for _, p := range o.Products { stmt.ExecContext(...) }` of `PutOrder`:
the `i`-th exec either fails or adds one row to the transaction. -/
def execItems (f : Faults) (oid : String) : Nat → List OrderedProduct → Tx → Option Err × Tx
  | _, [], t => (Option.none, t)
  | i, p :: ps, t =>
    match f.exec i with
    | some e => (some e, t)
    | Option.none =>
      execItems f oid (i + 1) ps
        { t with items := t.items ++ [{ orderID := oid, productID := p.ProductID, quantity := p.Quantity }] }

/-- `postgresRepository.PutOrder` (`order/repository.go`). The deferred function rolls the
transaction back when the named result `err` is non-nil, and does nothing otherwise. -/
def postgresRepository.PutOrder (f : Faults) (db : DB) (o : Order) : Option Err × DB :=
  match f.begin with
  | some e => (some e, db)
  | Option.none =>
    let tx : Tx := { status := TxStatus.begun, headers := [], items := [] }
    let deferred : Option Err × Tx → Option Err × DB := fun r =>
      match r.1 with
      | some e => (some e, db.leave r.2.Rollback)
      | Option.none => (Option.none, db.leave r.2)
    match f.header with
    | some e => deferred (some e, tx)
    | Option.none =>
      let tx1 : Tx := { tx with headers := tx.headers ++
        [{ id := o.ID, accountID := o.AccountID, createdAt := o.CreatedAt, totalPrice := o.Total }] }
      match f.prepare with
      | some e => deferred (some e, tx1)
      | Option.none =>
        match execItems f o.ID 0 o.Products tx1 with
        | (some e, tx2) => deferred (some e, tx2)
        | (Option.none, tx2) =>
          match f.flush with
          | some e => deferred (some e, tx2)
          | Option.none => deferred (Option.none, tx2)

/-! ## The world outside the order server -/

/-- An outbound call of the order server, or of the order service to its repository. -/
inductive Call where
  | getAccount (id : String)
  | getProduct (id : String)
  | getProducts (ids : List String)
  | putOrder (o : Order)
  | getOrdersForAccount (accountID : String)
deriving DecidableEq, Repr

/-- What the order server can observe and change: the calls made so far, and the database. -/
structure World where
  calls : List Call
  db : DB
deriving DecidableEq, Repr

/-- One row of the join of `GetOrdersForAccount`:
`o.id, o.account_id, o.created_at, o.total_price, op.product_id, op.quantity`. -/
structure Row where
  orderID : String
  accountID : String
  createdAt : Time
  total : F64
  productID : String
  quantity : Int
deriving DecidableEq, Repr

/-- The collaborators of one request. The remote answers depend on the calls made before;
`ksuid` and `now` are the values of `ksuid.New().String()` and `time.Now().UTC()`;
`queryRows` is the outcome of the `SELECT` for an account (a query error, or the rows, each of
which scans or fails to); `rangeKeys` is the order in which `range` visits the keys of a map. -/
structure Env where
  getAccount : List Call → String → Except Err account.Account
  getProduct : List Call → String → Except Err catalog.Product
  getProducts : List Call → List String → Except Err (List catalog.Product)
  ksuid : String
  now : Time
  faults : Faults
  queryRows : String → Except Err (List (Except Err Row))
  rangeKeys : List String → List String

/-- `orderService.PostOrder` (`order/service.go`): the order is written with `Total = 0.0`. -/
def orderService.PostOrder (env : Env) (w : World) (accountID : String)
    (products : List OrderedProduct) : Except Err Order × World :=
  let order : Order :=
    { ID := env.ksuid, AccountID := accountID, CreatedAt := env.now, Total := F64.fin 0, Products := products }
  let r := postgresRepository.PutOrder env.faults w.db order
  let w1 : World := { calls := w.calls ++ [Call.putOrder order], db := r.2 }
  match r.1 with
  | some e => (Except.error e, w1)
  | Option.none => (Except.ok order, w1)

/-- The first loop of `grpcServer.PostOrder`: one `GetProduct` call per requested item, in
request order; the first failure ends the request. -/
def resolveItems (env : Env) :
    List pb.PostOrderRequest_OrderProduct → World → List OrderedProduct → F64 →
      Except Err (List OrderedProduct × F64) × World
  | [], w, products, total => (Except.ok (products, total), w)
  | item :: rest, w, products, total =>
    let w1 : World := { w with calls := w.calls ++ [Call.getProduct item.ProductId] }
    match env.getProduct w.calls item.ProductId with
    | Except.error e => (Except.error e, w1)
    | Except.ok product =>
      resolveItems env rest w1
        (products ++ [{ ProductID := product.ID, Quantity := (item.Quantity : Int) }])
        (F64.add total (F64.mul product.Price (F64.ofUint32 item.Quantity)))

/-- The inner loop of the enrichment: the first catalog product with the wanted id. -/
def firstWithID (id : String) : List catalog.Product → Option catalog.Product
  | [] => Option.none
  | c :: cs => if c.ID = id then some c else firstWithID id cs

/-- `uint32(x)` for an `int` `x`. -/
def toUint32 (x : Int) : Nat := (x % 2 ^ 32).toNat

/-- The last loop of `grpcServer.PostOrder`: a line item whose product is in the batch result
is appended, one that is not is skipped. -/
def enrich (catalogProducts : List catalog.Product) : List OrderedProduct → List pb.OrderedProduct
  | [] => []
  | p :: ps =>
    match firstWithID p.ProductID catalogProducts with
    | some c =>
      { Id := c.ID, Name := c.Name, Description := c.Description, Price := c.Price,
        Quantity := toUint32 p.Quantity } :: enrich catalogProducts ps
    | Option.none => enrich catalogProducts ps

/-- `grpcServer.PostOrder` (`order/server.go`). -/
def grpcServer.PostOrder (env : Env) (w : World) (req : pb.PostOrderRequest) :
    Except Err pb.PostOrderResponse × World :=
  let w1 : World := { w with calls := w.calls ++ [Call.getAccount req.AccountId] }
  match env.getAccount w.calls req.AccountId with
  | Except.error e => (Except.error e, w1)
  | Except.ok _ =>
    match resolveItems env req.Products w1 [] (F64.fin 0) with
    | (Except.error e, w2) => (Except.error e, w2)
    | (Except.ok (products, total), w2) =>
      match orderService.PostOrder env w2 req.AccountId products with
      | (Except.error e, w3) => (Except.error e, w3)
      | (Except.ok order0, w3) =>
        let order : Order := { order0 with Total := total }
        let productIDs := order.Products.map (fun p => p.ProductID)
        let w4 : World := { w3 with calls := w3.calls ++ [Call.getProducts productIDs] }
        match env.getProducts w3.calls productIDs with
        | Except.error e => (Except.error e, w4)
        | Except.ok catalogProducts =>
          (Except.ok { Order :=
            { Id := order.ID, AccountId := order.AccountID, Total := order.Total,
              CreatedAt := order.CreatedAt, Products := enrich catalogProducts order.Products } }, w4)

/-! ## Retrieval -/

/-- The variables `orders`, `lastOrder`, `products` of the loop of `GetOrdersForAccount`. -/
structure LoopState where
  orders : List Order
  lastOrder : Option Order
  products : List OrderedProduct
deriving DecidableEq, Repr

/-- One iteration of `for rows.Next()` after a successful `Scan`. -/
def groupStep (s : LoopState) (r : Row) : LoopState :=
  let item : OrderedProduct := { ProductID := r.productID, Quantity := r.quantity }
  let fresh : Order :=
    { ID := r.orderID, AccountID := r.accountID, CreatedAt := r.createdAt, Total := r.total,
      Products := [] }
  match s.lastOrder with
  | Option.none => { orders := s.orders, lastOrder := some fresh, products := [item] }
  | some last =>
    if last.ID ≠ r.orderID then
      { orders := s.orders ++ [{ last with Products := s.products }], lastOrder := some fresh,
        products := [item] }
    else { s with products := s.products ++ [item] }

/-- The loop `for rows.Next()`: a failing `Scan` ends the function with its error. -/
def scanLoop : List (Except Err Row) → LoopState → Except Err LoopState
  | [], s => Except.ok s
  | Except.error e :: _, _ => Except.error e
  | Except.ok r :: rest, s => scanLoop rest (groupStep s r)

/-- The code after the loop: "append the last order if exists". -/
def finishLoop (s : LoopState) : List Order :=
  match s.lastOrder with
  | Option.none => s.orders
  | some last => s.orders ++ [{ last with Products := s.products }]

/-- `postgresRepository.GetOrdersForAccount` (`order/repository.go`) on the outcome of its query. -/
def postgresRepository.GetOrdersForAccount (q : Except Err (List (Except Err Row))) :
    Except Err (List Order) :=
  match q with
  | Except.error e => Except.error e
  | Except.ok rows =>
    match scanLoop rows { orders := [], lastOrder := Option.none, products := [] } with
    | Except.error e => Except.error e
    | Except.ok s => Except.ok (finishLoop s)

/-- `orderService.GetOrdersForAccount` (`order/service.go`). -/
def orderService.GetOrdersForAccount (env : Env) (w : World) (accountID : String) :
    Except Err (List Order) × World :=
  (postgresRepository.GetOrdersForAccount (env.queryRows accountID),
    { w with calls := w.calls ++ [Call.getOrdersForAccount accountID] })

/-- `m[k] = true` on a `map[string]bool`, kept as the list of its keys. -/
def setKey (keys : List String) (k : String) : List String :=
  if k ∈ keys then keys else keys ++ [k]

/-- The two nested loops filling `productIDs` in `GetOrderForAccount`. -/
def collectIDs (accountOrders : List Order) : List String :=
  accountOrders.foldl (fun keys o => o.Products.foldl (fun ks p => setKey ks p.ProductID) keys) []

/-- The loop `productMap[p.ID] = p`: a later product replaces an earlier one with the same id. -/
def productMap (catalogProducts : List catalog.Product) : String → Option catalog.Product :=
  catalogProducts.foldl (fun m p => fun k => if k = p.ID then some p else m k) (fun _ => Option.none)

/-- The inner loop of the last loop of `GetOrderForAccount`. -/
def enrichWith (m : String → Option catalog.Product) : List OrderedProduct → List pb.OrderedProduct
  | [] => []
  | p :: ps =>
    match m p.ProductID with
    | some c =>
      { Id := c.ID, Name := c.Name, Description := c.Description, Price := c.Price,
        Quantity := toUint32 p.Quantity } :: enrichWith m ps
    | Option.none => enrichWith m ps

/-- `grpcServer.GetOrderForAccount` (`order/server.go`). -/
def grpcServer.GetOrderForAccount (env : Env) (w : World) (req : pb.GetOrderForAccountRequest) :
    Except Err pb.GetOrderForAccountResponse × World :=
  match orderService.GetOrdersForAccount env w req.AccountId with
  | (Except.error e, w1) => (Except.error e, w1)
  | (Except.ok accountOrders, w1) =>
    let ids := env.rangeKeys (collectIDs accountOrders)
    let w2 : World := { w1 with calls := w1.calls ++ [Call.getProducts ids] }
    match env.getProducts w1.calls ids with
    | Except.error e => (Except.error e, w2)
    | Except.ok catalogProducts =>
      let m := productMap catalogProducts
      (Except.ok { Orders := accountOrders.map (fun o =>
        { Id := o.ID, AccountId := o.AccountID, Total := o.Total, CreatedAt := o.CreatedAt,
          Products := enrichWith m o.Products }) }, w2)

end order

/-! ## The gateway -/

namespace graphql

/-- The gateway's `OrderProductInput`: `Quantity` is an `int`. -/
structure OrderProductInput where
  ID : String
  Quantity : Int
deriving DecidableEq, Repr

/-- The gateway's `OrderInput`. -/
structure OrderInput where
  AccountID : String
  Products : List OrderProductInput
deriving DecidableEq, Repr

/-- The gateway's `OrderedProduct`, with the fields `CreateOrder` fills. -/
structure OrderedProduct where
  ID : String
  Quantity : Int
deriving DecidableEq, Repr

/-- The gateway's `Order`. -/
structure Order where
  ID : String
  CreatedAt : Time
  TotalAmount : F64
  Products : List OrderedProduct
deriving DecidableEq, Repr

/-- `ErrValidParameters` (`graphql/mutation_resolver.go`). -/
def ErrValidParameters : Err := "valid parameters are required"

/-- A call of the gateway to `r.server.orderClient`. -/
inductive ClientCall where
  | postOrder (accountID : String) (products : List order.OrderedProduct)
deriving DecidableEq, Repr

/-- The loop of `CreateOrder` over `input.Products`: `Option.none` when it returns
`ErrValidParameters`, the converted products otherwise. -/
def convertInput : List OrderProductInput → List order.OrderedProduct →
    Option (List order.OrderedProduct)
  | [], products => some products
  | p :: ps, products =>
    if p.ID = "" ∨ p.Quantity ≤ 0 then Option.none
    else convertInput ps (products ++ [{ ProductID := p.ID, Quantity := p.Quantity }])

/-- `mutationResolver.CreateOrder` (`graphql/mutation_resolver.go`); `postOrder` is
`r.server.orderClient.PostOrder`, `calls` the calls made to the order client so far. -/
def mutationResolver.CreateOrder
    (postOrder : List ClientCall → String → List order.OrderedProduct → Except Err order.Order)
    (calls : List ClientCall) (input : OrderInput) : Except Err Order × List ClientCall :=
  if input.AccountID = "" ∨ input.Products.length = 0 then (Except.error ErrValidParameters, calls)
  else
    match convertInput input.Products [] with
    | Option.none => (Except.error ErrValidParameters, calls)
    | some products =>
      let calls1 := calls ++ [ClientCall.postOrder input.AccountID products]
      match postOrder calls input.AccountID products with
      | Except.error e => (Except.error e, calls1)
      | Except.ok orderResult =>
        (Except.ok
          { ID := orderResult.ID, CreatedAt := orderResult.CreatedAt,
            TotalAmount := orderResult.Total,
            Products := orderResult.Products.map
              (fun p => { ID := p.ProductID, Quantity := p.Quantity }) }, calls1)

end graphql

/-! ## Notions used to state the properties -/

namespace order

/-- The answers the individual `GetProduct` lookups give when asked for the items one after the
other, the first after the calls `h`. -/
def lookupAnswers (env : Env) : List Call → List pb.PostOrderRequest_OrderProduct →
    List (Except Err catalog.Product)
  | _, [] => []
  | h, item :: rest =>
    env.getProduct h item.ProductId :: lookupAnswers env (h ++ [Call.getProduct item.ProductId]) rest

/-- The `float64` accumulation `total += price * float64(quantity)` from `tot` on, over the
items paired in order with the products their lookups returned. -/
def accumulate (tot : F64) :
    List catalog.Product → List pb.PostOrderRequest_OrderProduct → F64
  | p :: ps, item :: items =>
    accumulate (F64.add tot (F64.mul p.Price (F64.ofUint32 item.Quantity))) ps items
  | [], _ => tot
  | _ :: _, [] => tot

/-- The total of the items as the creation computes it: the accumulation from `0.0`. -/
def pricedTotal (ps : List catalog.Product) (items : List pb.PostOrderRequest_OrderProduct) : F64 :=
  accumulate (F64.fin 0) ps items

/-- The line items built from the looked-up products and the requested quantities. -/
def lineItems (ps : List catalog.Product) (items : List pb.PostOrderRequest_OrderProduct) :
    List OrderedProduct :=
  List.zipWith (fun p item => { ProductID := p.ID, Quantity := (item.Quantity : Int) }) ps items

/-- No driver call of a `PutOrder` of `n` line items fails. -/
def Faults.clean (f : Faults) (n : Nat) : Prop :=
  f.begin = Option.none ∧ f.header = Option.none ∧ f.prepare = Option.none ∧
    (∀ i, i < n → f.exec i = Option.none) ∧ f.flush = Option.none

/-- The driver calls of `PutOrder` that follow `BeginTx`. -/
inductive FailurePoint where
  | header
  | prepare
  | exec (i : Nat)
  | flush
deriving DecidableEq, Repr

/-- `PutOrder` of `n` line items meets its first fault at point `pt`, with error `e`: every
driver call before `pt` succeeds and the call at `pt` fails with `e`. -/
def Faults.failsAt (f : Faults) (n : Nat) (pt : FailurePoint) (e : Err) : Prop :=
  match pt with
  | FailurePoint.header => f.header = some e
  | FailurePoint.prepare => f.header = Option.none ∧ f.prepare = some e
  | FailurePoint.exec i =>
    f.header = Option.none ∧ f.prepare = Option.none ∧ i < n ∧
      (∀ j, j < i → f.exec j = Option.none) ∧ f.exec i = some e
  | FailurePoint.flush =>
    f.header = Option.none ∧ f.prepare = Option.none ∧
      (∀ j, j < n → f.exec j = Option.none) ∧ f.flush = some e

/-- The calls made by a creation when step 5 starts: the account lookup, one product lookup per
item, and the store write of order `o`. -/
def callsBeforeBatch (w : World) (req : pb.PostOrderRequest) (o : Order) : List Call :=
  w.calls ++ [Call.getAccount req.AccountId] ++
    req.Products.map (fun item => Call.getProduct item.ProductId) ++ [Call.putOrder o]

/-- The header row `PutOrder` inserts for `o`. -/
def headerRow (o : Order) : HeaderRow :=
  { id := o.ID, accountID := o.AccountID, createdAt := o.CreatedAt, totalPrice := o.Total }

/-- The line-item rows `PutOrder` inserts for `o`. -/
def itemRows (o : Order) : List ItemRow :=
  o.Products.map (fun p => { orderID := o.ID, productID := p.ProductID, quantity := p.Quantity })

/-- The transaction a fault-free `PutOrder` of `o` leaves behind. -/
def writtenTx (o : Order) : Tx :=
  { status := TxStatus.begun, headers := [headerRow o], items := itemRows o }

/-- The order a creation hands to the store when its lookups returned `ps`: the service sets
`Total` to `0.0` before the write. -/
def storedOrder (env : Env) (req : pb.PostOrderRequest) (ps : List catalog.Product) : Order :=
  { ID := env.ksuid, AccountID := req.AccountId, CreatedAt := env.now, Total := F64.fin 0,
    Products := lineItems ps req.Products }

/-- The product ids a creation passes to the batch call of step 5. -/
def batchIDs (ps : List catalog.Product) (req : pb.PostOrderRequest) : List String :=
  (lineItems ps req.Products).map (fun p => p.ProductID)

/-! ### Example data -/

/-- A catalog product `p1` priced 9.99. -/
def exP1 : catalog.Product := { ID := "p1", Name := "pen", Description := "a pen", Price := F64.ofRat (999 / 100) }

/-- The database with no rows and no transactions. -/
def exDB : DB := { orders := [], orderProducts := [], txs := [] }

/-- The world before any call. -/
def exWorld : World := { calls := [], db := exDB }

/-- An environment with account `acct-1` and product `p1`; the batch call reports `p1` at a
different price, 5. -/
def exEnv : Env :=
  { getAccount := fun _ id =>
      if id = "acct-1" then Except.ok { ID := id, Name := "ann" } else Except.error "account not found"
    getProduct := fun _ id =>
      if id = "p1" then Except.ok exP1 else Except.error "product not found"
    getProducts := fun _ _ => Except.ok [{ exP1 with Price := F64.fin 5 }]
    ksuid := "order-1"
    now := 1000
    faults := Faults.none
    queryRows := fun _ => Except.ok []
    rangeKeys := fun ks => ks }

/-- The request `CreateOrder("acct-1", [(p1, 2)])`. -/
def exReq : pb.PostOrderRequest :=
  { AccountId := "acct-1", Products := [{ ProductId := "p1", Quantity := 2 }] }

/-- An order of two line items. -/
def exOrder : Order :=
  { ID := "order-1", AccountID := "acct-1", CreatedAt := 1000, Total := F64.ofRat (1998 / 100),
    Products := [{ ProductID := "p1", Quantity := 2 }, { ProductID := "p2", Quantity := 1 }] }

/-- The fault plan in which the exec of the second line item fails. -/
def exFaults : Faults :=
  { Faults.none with exec := fun i => if i = 1 then some "connection lost" else Option.none }

/-- A request for one valid and one nonexistent product. -/
def exReqMixed : pb.PostOrderRequest :=
  { AccountId := "acct-1",
    Products := [{ ProductId := "p1", Quantity := 1 }, { ProductId := "missing", Quantity := 1 }] }

/-- A request for an account that does not exist. -/
def exReqNoAccount : pb.PostOrderRequest :=
  { AccountId := "nobody", Products := [{ ProductId := "p1", Quantity := 1 }] }

/-- A request sent straight to the order server with the quantity 0. -/
def exReqZero : pb.PostOrderRequest :=
  { AccountId := "acct-1", Products := [{ ProductId := "p1", Quantity := 0 }] }

/-! ### Notions for the grouping loop -/

/-- The line item a joined row contributes. -/
def Row.item (r : Row) : OrderedProduct := { ProductID := r.productID, Quantity := r.quantity }

/-- Two rows carry the same order header (id, account id, created-at, total). -/
def Row.sameHeader (a b : Row) : Prop :=
  a.orderID = b.orderID ∧ a.accountID = b.accountID ∧ a.createdAt = b.createdAt ∧ a.total = b.total

/-- The order id, product id and quantity of a row. -/
def Row.key (r : Row) : String × String × Int := (r.orderID, r.productID, r.quantity)

/-- Flattening orders back into joined rows: one row per line item, under its order header. -/
def flattenOrders : List Order → List Row
  | [] => []
  | o :: os =>
    o.Products.map (fun p =>
      { orderID := o.ID, accountID := o.AccountID, createdAt := o.CreatedAt, total := o.Total,
        productID := p.ProductID, quantity := p.Quantity }) ++ flattenOrders os

/-- The order of a group of rows, given as its first row and the rows after it: the header of
the first row, and one line item per row. -/
def orderOfGroup (g : Row × List Row) : Order :=
  { ID := g.1.orderID, AccountID := g.1.accountID, CreatedAt := g.1.createdAt, Total := g.1.total,
    Products := (g.1 :: g.2).map Row.item }

/-- The rows of a list of groups, in order. -/
def ungroup : List (Row × List Row) → List Row
  | [] => []
  | g :: gs => g.1 :: g.2 ++ ungroup gs

/-- The maximal runs of adjacent rows that share an order id, each as its first row and the
rows after it. -/
def groups : List Row → List (Row × List Row)
  | [] => []
  | r :: rs =>
    match groups rs with
    | [] => [(r, [])]
    | g :: gs => if r.orderID = g.1.orderID then (r, g.1 :: g.2) :: gs else (r, []) :: g :: gs

/-- What the loop returns from a state with open order `last` and collected items `ps`, when
the rows still to come form the groups `gs`. -/
def closeWith (last : Order) (ps : List OrderedProduct) : List (Row × List Row) → List Order
  | [] => [{ last with Products := ps }]
  | g :: gs =>
    if last.ID ≠ g.1.orderID then { last with Products := ps } :: (g :: gs).map orderOfGroup
    else { last with Products := ps ++ (g.1 :: g.2).map Row.item } :: gs.map orderOfGroup

/-- The joined rows of two orders, the later one first. -/
def exRows : List Row :=
  [{ orderID := "o2", accountID := "acct-1", createdAt := 9, total := F64.fin 5, productID := "p1", quantity := 1 },
   { orderID := "o2", accountID := "acct-1", createdAt := 9, total := F64.fin 5, productID := "p2", quantity := 3 },
   { orderID := "o1", accountID := "acct-1", createdAt := 7, total := F64.fin 10, productID := "p1", quantity := 2 }]

/-- The example environment with `exRows` as the rows of account `acct-1`. -/
def exEnvRows : Env := { exEnv with queryRows := fun _ => Except.ok (exRows.map Except.ok) }

end order

/-! ## The catalog service behind the batch lookup -/

namespace catalog

namespace pb

/-- `pb.Product` of the catalog service. -/
structure Product where
  Id : String
  Name : String
  Description : String
  Price : F64
deriving DecidableEq, Repr

/-- `pb.GetProductsRequest`: `Skip` and `Take` are `uint64`. -/
structure GetProductsRequest where
  Ids : List String
  Query : String
  Skip : Nat
  Take : Nat
deriving DecidableEq, Repr

/-- `pb.GetProductsResponse`. -/
structure GetProductsResponse where
  Products : List Product
deriving DecidableEq, Repr

end pb

/-- `uint64(x)` for an `int` `x`. -/
def toUint64 (x : Int) : Nat := (x % 2 ^ 64).toNat

/-- `int(x)` for a `uint64` `x`, on a platform with 64-bit `int`. -/
def uint64ToInt (x : Nat) : Int :=
  if x % 2 ^ 64 < 2 ^ 63 then ((x % 2 ^ 64 : Nat) : Int) else ((x % 2 ^ 64 : Nat) : Int) - 2 ^ 64

/-- The catalog `Repository` methods the product listing uses, as oracles of the search index. -/
structure Repository where
  ListsProducts : Int → Int → Except Err (List Product)
  ListsProductsWithIDs : List String → Except Err (List Product)
  SearchProducts : String → Int → Int → Except Err (List Product)

/-- `CatalogService.GetProductByIDs` (`catalog/service.go`). -/
def CatalogService.GetProductByIDs (repo : Repository) (ids : List String) :
    Except Err (List Product) :=
  repo.ListsProductsWithIDs ids

/-- `CatalogService.GetProducts` (`catalog/service.go`). -/
def CatalogService.GetProducts (repo : Repository) (skip take : Int) : Except Err (List Product) :=
  if skip < 0 ∨ take ≤ 0 then Except.error "invalid pagination parameters"
  else repo.ListsProducts skip (if take > 100 then 100 else take)

/-- `CatalogService.SearchProducts` (`catalog/service.go`). -/
def CatalogService.SearchProducts (repo : Repository) (query : String) (skip take : Int) :
    Except Err (List Product) :=
  repo.SearchProducts query skip take

/-- `grpcServer.GetProducts` of the catalog service (`catalog/server.go`). -/
def grpcServer.GetProducts (repo : Repository) (req : pb.GetProductsRequest) :
    Except Err pb.GetProductsResponse :=
  let r : Except Err (List Product) :=
    if req.Query ≠ "" then
      CatalogService.SearchProducts repo req.Query (uint64ToInt req.Skip) (uint64ToInt req.Take)
    else if req.Ids.length > 0 then CatalogService.GetProductByIDs repo req.Ids
    else CatalogService.GetProducts repo (uint64ToInt req.Skip) (uint64ToInt req.Take)
  match r with
  | Except.error e => Except.error e
  | Except.ok products =>
    Except.ok { Products := products.map (fun p =>
      { Id := p.ID, Name := p.Name, Description := p.Description, Price := p.Price }) }

/-- `convertProducts` (`catalog/client.go`). -/
def convertProducts (products : List pb.Product) : List Product :=
  products.map (fun p => { ID := p.Id, Name := p.Name, Description := p.Description, Price := p.Price })

/-- `Client.GetProducts` (`catalog/client.go`); `service` is the remote `GetProducts` handler,
whose error reaches the caller as an error. -/
def Client.GetProducts (service : pb.GetProductsRequest → Except Err pb.GetProductsResponse)
    (ids : List String) (query : String) (skip take : Int) : Except Err (List Product) :=
  match service { Ids := ids, Query := query, Skip := toUint64 skip, Take := toUint64 take } with
  | Except.error e => Except.error e
  | Except.ok resp => Except.ok (convertProducts resp.Products)

end catalog

namespace order

/-- The batch call `s.catalogClient.GetProducts(ctx, ids, "", 0, 0)` of the order server, with
the catalog client connected to the catalog service over `repo`. -/
def catalogBatch (repo : catalog.Repository) (ids : List String) : Except Err (List catalog.Product) :=
  catalog.Client.GetProducts (catalog.grpcServer.GetProducts repo) ids "" 0 0

/-- A catalog index holding `p1`. -/
def exRepo : catalog.Repository :=
  { ListsProducts := fun _ _ => Except.ok [exP1]
    ListsProductsWithIDs := fun ids => Except.ok (if "p1" ∈ ids then [exP1] else [])
    SearchProducts := fun _ _ _ => Except.ok [] }

/-- The example environment with the catalog service as batch lookup and no rows for any account. -/
def exEnvCatalog : Env := { exEnv with getProducts := fun _ ids => catalogBatch exRepo ids }

/-- The enriched line item built from catalog product `c` for stored line item `p`. -/
def enriched (c : catalog.Product) (p : OrderedProduct) : pb.OrderedProduct :=
  { Id := c.ID, Name := c.Name, Description := c.Description, Price := c.Price,
    Quantity := toUint32 p.Quantity }

/-- The identifying fields of a returned order: id, account id and total. -/
def pb.Order.header (o : pb.Order) : String × String × F64 := (o.Id, o.AccountId, o.Total)

/-- The identifying fields of a stored order: id, account id and total. -/
def Order.header (o : Order) : String × String × F64 := (o.ID, o.AccountID, o.Total)

/-- The example environment with rows `exRows` and a catalog whose batch call fails. -/
def exEnvBatchDown : Env :=
  { exEnvRows with getProducts := fun _ _ => Except.error "catalog unavailable" }

/-- The example environment with rows `exRows` and a catalog that has lost every product. -/
def exEnvNoProducts : Env := { exEnvRows with getProducts := fun _ _ => Except.ok [] }

/-- The example environment with a failing order query. -/
def exEnvStoreDown : Env := { exEnv with queryRows := fun _ => Except.error "database unavailable" }

/-- The example environment of creation with a catalog whose batch call fails. -/
def exEnvCreateBatchDown : Env :=
  { exEnv with getProducts := fun _ _ => Except.error "catalog unavailable" }

/-- The enriched line items of a creation response: for each request item, paired with the
product its lookup returned, the first batch product with that product's id, if there is one,
with the requested quantity. -/
def enrichedItems (cps ps : List catalog.Product) (items : List pb.PostOrderRequest_OrderProduct) :
    List pb.OrderedProduct :=
  (List.zip ps items).filterMap (fun pi =>
    (firstWithID pi.1.ID cps).map (fun c =>
      { Id := c.ID, Name := c.Name, Description := c.Description, Price := c.Price,
        Quantity := pi.2.Quantity }))

/-- A request that asks for `p1` twice and for `missing` once. -/
def exReqTwice : pb.PostOrderRequest :=
  { AccountId := "acct-1",
    Products := [{ ProductId := "p1", Quantity := 2 }, { ProductId := "p9", Quantity := 1 },
                 { ProductId := "p1", Quantity := 3 }] }

/-- A catalog product `p9` that the batch call of `exEnvTwice` no longer reports. -/
def exP9 : catalog.Product := { ID := "p9", Name := "ink", Description := "blue ink", Price := F64.fin 3 }

/-- An environment whose lookups know `p1` and `p9` and whose batch call reports `p1` only. -/
def exEnvTwice : Env :=
  { exEnv with
    getProduct := fun _ id =>
      if id = "p1" then Except.ok exP1
      else if id = "p9" then Except.ok exP9 else Except.error "product not found" }

/-! ### The order client -/

/-- The loop of `Client.PostOrder` (`order/client.go`) that builds `protoProducts`: the `int`
quantity is converted to `uint32`. -/
def Client.protoProducts (products : List OrderedProduct) : List pb.PostOrderRequest_OrderProduct :=
  products.map (fun p => { ProductId := p.ProductID, Quantity := toUint32 p.Quantity })

/-- `Client.PostOrder` (`order/client.go`), with the order server at the other end of the
connection. -/
def Client.PostOrder (env : Env) (w : World) (accountID : String) (products : List OrderedProduct) :
    Except Err Order × World :=
  match grpcServer.PostOrder env w
      { AccountId := accountID, Products := Client.protoProducts products } with
  | (Except.error e, w2) => (Except.error e, w2)
  | (Except.ok resp, w2) =>
    (Except.ok
      { ID := resp.Order.Id, AccountID := resp.Order.AccountId,
        Products := resp.Order.Products.map
          (fun p => { ProductID := p.Id, Quantity := (p.Quantity : Int) }),
        Total := resp.Order.Total, CreatedAt := resp.Order.CreatedAt }, w2)

/-- Three rows of two orders created at the same instant, the rows of `o1` not adjacent. -/
def exRowsTied : List Row :=
  [{ orderID := "o1", accountID := "acct-1", createdAt := 7, total := F64.fin 10, productID := "p1", quantity := 1 },
   { orderID := "o2", accountID := "acct-1", createdAt := 7, total := F64.fin 5, productID := "p1", quantity := 2 },
   { orderID := "o1", accountID := "acct-1", createdAt := 7, total := F64.fin 10, productID := "p2", quantity := 3 }]

/-- A gateway input whose only line item has the quantity `2 ^ 32`. -/
def exInputBig : graphql.OrderInput :=
  { AccountID := "acct-1", Products := [{ ID := "p1", Quantity := 4294967296 }] }

/-- A catalog product `p1` priced 0.1. -/
def exPTenth : catalog.Product :=
  { ID := "p1", Name := "pin", Description := "a pin", Price := F64.ofRat (1 / 10) }

/-- The example environment with `p1` priced 0.1. -/
def exEnvTenth : Env :=
  { exEnv with
    getProduct := fun _ id =>
      if id = "p1" then Except.ok exPTenth else Except.error "product not found" }

/-- The request `CreateOrder("acct-1", [(p1, 3)])`. -/
def exReqThree : pb.PostOrderRequest :=
  { AccountId := "acct-1", Products := [{ ProductId := "p1", Quantity := 3 }] }

/-- The header a joined row carries. -/
def Row.header (r : Row) : HeaderRow :=
  { id := r.orderID, accountID := r.accountID, createdAt := r.createdAt, totalPrice := r.total }

/-- The rows are rows of `orders o JOIN order_products op ON o.id = op.order_id` over a table
`orders` whose ids are unique: every row carries the header of a row of `orders`. -/
def IsJoin (orders : List HeaderRow) (rows : List Row) : Prop :=
  (orders.map (fun h => h.id)).Nodup ∧ ∀ r ∈ rows, r.header ∈ orders

/-- The `orders` table behind `exRows`. -/
def exOrdersTable : List HeaderRow :=
  [{ id := "o1", accountID := "acct-1", createdAt := 7, totalPrice := F64.fin 10 },
   { id := "o2", accountID := "acct-1", createdAt := 9, totalPrice := F64.fin 5 }]

/-- The quantities of the stored line items are quantities the write path stores: `PutOrder`
is handed `int(q)` for a `uint32` `q` (`server.go:65`), a value in `0 .. 2 ^ 32 - 1`. -/
def WrittenQuantities (orders : List Order) : Prop :=
  ∀ o ∈ orders, ∀ p ∈ o.Products, 0 ≤ p.Quantity ∧ p.Quantity < 2 ^ 32

/-- The enriched line item that carries the data of catalog product `c` and the stored quantity
of line item `p`. -/
def enrichedStored (c : catalog.Product) (p : OrderedProduct) : pb.OrderedProduct :=
  { Id := c.ID, Name := c.Name, Description := c.Description, Price := c.Price,
    Quantity := p.Quantity.toNat }

end order

/-! ## Lemmas on `float64` -/

namespace F64

/-- The rounding of `x`, read off from its floor `f`. -/
theorem roundHalfEven_eq (x : ℚ) (f m : ℤ) (hf1 : (f : ℚ) ≤ x) (hf2 : x < (f : ℚ) + 1)
    (hm : (x - (f : ℚ) < 1 / 2 ∧ m = f) ∨ (1 / 2 < x - (f : ℚ) ∧ m = f + 1) ∨
      (x - (f : ℚ) = 1 / 2 ∧ m = if f % 2 = 0 then f else f + 1)) :
    roundHalfEven x = m := by
  have hfl : ⌊x⌋ = f := Int.floor_eq_iff.mpr ⟨hf1, hf2⟩
  unfold roundHalfEven
  rw [hfl]
  rcases hm with ⟨h, rfl⟩ | ⟨h, rfl⟩ | ⟨h, rfl⟩
  · rw [if_pos h]
  · rw [if_neg (not_lt.mpr (le_of_lt h)), if_pos h]
  · rw [if_neg (by rw [h]; exact lt_irrefl _), if_neg (by rw [h]; exact lt_irrefl _)]

/-- The binary exponent of a positive rational, from the powers of two around it. -/
theorem log_eq (q : ℚ) (e : ℤ) (hq : 0 < q) (hlo : (2 : ℚ) ^ e ≤ q) (hhi : q < (2 : ℚ) ^ (e + 1)) :
    Int.log 2 q = e := by
  have h1 : e ≤ Int.log 2 q := by
    rw [← Int.zpow_le_iff_le_log (by norm_num) hq]
    exact_mod_cast hlo
  have h2 : Int.log 2 q < e + 1 := by
    rw [← Int.lt_zpow_iff_log_lt (by norm_num) hq]
    exact_mod_cast hhi
  omega

/-- The `float64` nearest to a positive rational `q`, from its exponent `e`, the floor `f` of
`q / 2 ^ (e - 52)` and the rounding `m` of that quotient. -/
theorem ofRat_pos (q : ℚ) (e f m : ℤ) (hq : 0 < q) (he : -1022 ≤ e)
    (hlo : (2 : ℚ) ^ e ≤ q) (hhi : q < (2 : ℚ) ^ (e + 1))
    (hf1 : (f : ℚ) ≤ q / (2 : ℚ) ^ (e - 52)) (hf2 : q / (2 : ℚ) ^ (e - 52) < (f : ℚ) + 1)
    (hm : (q / (2 : ℚ) ^ (e - 52) - (f : ℚ) < 1 / 2 ∧ m = f) ∨
      (1 / 2 < q / (2 : ℚ) ^ (e - 52) - (f : ℚ) ∧ m = f + 1) ∨
      (q / (2 : ℚ) ^ (e - 52) - (f : ℚ) = 1 / 2 ∧ m = if f % 2 = 0 then f else f + 1))
    (hfin : (m : ℚ) * (2 : ℚ) ^ (e - 52) < (2 : ℚ) ^ (1024 : Int)) :
    ofRat q = fin ((m : ℚ) * (2 : ℚ) ^ (e - 52)) := by
  have habs : |q| = q := abs_of_pos hq
  have hlog : Int.log 2 q = e := log_eq q e hq hlo hhi
  have hmax : max e (-1022) = e := max_eq_left he
  have hround := roundHalfEven_eq _ f m hf1 hf2 hm
  unfold ofRat
  rw [if_neg (ne_of_gt hq)]
  simp only [habs, hlog, hmax, hround]
  rw [if_neg (not_le.mpr hfin), if_neg (not_lt.mpr (le_of_lt hq))]

end F64

/-! ## Lemmas on the store write -/

namespace order

theorem execItems_clean (f : Faults) (oid : String) (ps : List OrderedProduct) :
    ∀ (k : Nat) (t : Tx), (∀ i, i < ps.length → f.exec (k + i) = Option.none) →
      execItems f oid k ps t =
        (Option.none, { t with items := t.items ++ ps.map (fun p =>
          { orderID := oid, productID := p.ProductID, quantity := p.Quantity }) }) := by
  induction ps with
  | nil => intro k t _; simp [execItems]
  | cons p ps ih =>
    intro k t h
    have h0 : f.exec k = Option.none := by simpa using h 0 (by simp)
    have hs : ∀ i, i < ps.length → f.exec (k + 1 + i) = Option.none := by
      intro i hi
      have := h (i + 1) (by simpa using hi)
      rwa [show k + 1 + i = k + (i + 1) by omega]
    simp [execItems, h0, ih (k + 1) _ hs]

theorem PutOrder_clean (f : Faults) (db : DB) (o : Order) (h : f.clean o.Products.length) :
    postgresRepository.PutOrder f db o = (Option.none, db.leave (writtenTx o)) := by
  obtain ⟨hb, hh, hp, he, hf⟩ := h
  have hx := execItems_clean f o.ID o.Products 0
    { status := TxStatus.begun, headers := [] ++
      [{ id := o.ID, accountID := o.AccountID, createdAt := o.CreatedAt, totalPrice := o.Total }],
      items := [] } (by simpa using he)
  simp only [postgresRepository.PutOrder, hb, hh, hp, hf, hx]
  simp [writtenTx, headerRow, itemRows]

/-! ## Lemmas on creation -/

theorem resolveItems_ok (env : Env) (items : List pb.PostOrderRequest_OrderProduct) :
    ∀ (ps : List catalog.Product) (w : World) (acc : List OrderedProduct) (tot : F64),
      lookupAnswers env w.calls items = ps.map Except.ok →
      resolveItems env items w acc tot =
        (Except.ok (acc ++ lineItems ps items, accumulate tot ps items),
          { w with calls := w.calls ++ items.map (fun item => Call.getProduct item.ProductId) }) := by
  induction items with
  | nil =>
    intro ps w acc tot h
    cases ps with
    | nil => simp [resolveItems, lineItems, accumulate]
    | cons p ps => simp [lookupAnswers] at h
  | cons item rest ih =>
    intro ps w acc tot h
    cases ps with
    | nil => simp [lookupAnswers] at h
    | cons p ps =>
      simp only [lookupAnswers, List.map_cons, List.cons.injEq] at h
      obtain ⟨h1, h2⟩ := h
      have := ih ps { w with calls := w.calls ++ [Call.getProduct item.ProductId] }
        (acc ++ [{ ProductID := p.ID, Quantity := (item.Quantity : Int) }])
        (F64.add tot (F64.mul p.Price (F64.ofUint32 item.Quantity))) h2
      simp only [resolveItems, h1, this]
      simp [lineItems, accumulate]

/-- When the loop of lookups succeeds, every lookup answered with a product. -/
theorem resolveItems_inv (env : Env) (items : List pb.PostOrderRequest_OrderProduct) :
    ∀ (w w2 : World) (acc products : List OrderedProduct) (tot total : F64),
      resolveItems env items w acc tot = (Except.ok (products, total), w2) →
      ∃ ps : List catalog.Product, lookupAnswers env w.calls items = ps.map Except.ok := by
  induction items with
  | nil => intro w w2 acc products tot total _; exact ⟨[], by simp [lookupAnswers]⟩
  | cons item rest ih =>
    intro w w2 acc products tot total h
    simp only [resolveItems] at h
    cases hg : env.getProduct w.calls item.ProductId with
    | error e => simp [hg] at h
    | ok p =>
      simp only [hg] at h
      obtain ⟨ps, hps⟩ := ih _ _ _ _ _ _ h
      exact ⟨p :: ps, by simp [lookupAnswers, hg, hps]⟩

/-- When some lookup fails, the loop returns the error of a failed lookup, leaves the database
alone and has only made `GetProduct` calls. -/
theorem resolveItems_fail (env : Env) (items : List pb.PostOrderRequest_OrderProduct) :
    ∀ (w : World) (acc : List OrderedProduct) (tot : F64),
      (∃ e, Except.error e ∈ lookupAnswers env w.calls items) →
      ∃ e k, Except.error e ∈ lookupAnswers env w.calls items ∧
        resolveItems env items w acc tot =
          (Except.error e,
            { w with
              calls := w.calls ++ (items.take k).map (fun item => Call.getProduct item.ProductId) }) := by
  induction items with
  | nil => intro w acc tot h; simp [lookupAnswers] at h
  | cons item rest ih =>
    intro w acc tot h
    cases hg : env.getProduct w.calls item.ProductId with
    | error e =>
      refine ⟨e, 1, by simp [lookupAnswers, hg], ?_⟩
      simp [resolveItems, hg]
    | ok p =>
      obtain ⟨e, he⟩ := h
      simp only [lookupAnswers, hg, List.mem_cons] at he
      rcases he with he | he
      · cases he
      · obtain ⟨e1, k, hm, hr⟩ := ih { w with calls := w.calls ++ [Call.getProduct item.ProductId] }
          (acc ++ [{ ProductID := p.ID, Quantity := (item.Quantity : Int) }])
          (F64.add tot (F64.mul p.Price (F64.ofUint32 item.Quantity))) ⟨e, he⟩
        refine ⟨e1, k + 1, by simp [lookupAnswers, hm], ?_⟩
        simp [resolveItems, hg, hr]

theorem lookupAnswers_length (env : Env) (items : List pb.PostOrderRequest_OrderProduct) :
    ∀ h : List Call, (lookupAnswers env h items).length = items.length := by
  induction items with
  | nil => intro h; rfl
  | cons item rest ih => intro h; simp [lookupAnswers, ih]

theorem lineItems_length (ps : List catalog.Product)
    (items : List pb.PostOrderRequest_OrderProduct) (h : ps.length = items.length) :
    (lineItems ps items).length = items.length := by
  simp [lineItems, h]

theorem Faults.clean_none (n : Nat) : Faults.none.clean n := by
  simp [Faults.clean, Faults.none]

/-- What `PostOrder` does when the account lookup, every product lookup and the store write
succeed: the outcome of the batch call decides between an error and the enriched order. -/
theorem PostOrder_of_success (env : Env) (w : World) (req : pb.PostOrderRequest)
    (a : account.Account) (ps : List catalog.Product)
    (hacc : env.getAccount w.calls req.AccountId = Except.ok a)
    (hprod : lookupAnswers env (w.calls ++ [Call.getAccount req.AccountId]) req.Products =
      ps.map Except.ok)
    (hput : env.faults.clean req.Products.length) :
    grpcServer.PostOrder env w req =
      (match env.getProducts (callsBeforeBatch w req (storedOrder env req ps)) (batchIDs ps req) with
        | Except.error e => Except.error e
        | Except.ok cps => Except.ok { Order :=
            { Id := env.ksuid, AccountId := req.AccountId, Total := pricedTotal ps req.Products,
              CreatedAt := env.now, Products := enrich cps (lineItems ps req.Products) } },
        { calls := callsBeforeBatch w req (storedOrder env req ps) ++
            [Call.getProducts (batchIDs ps req)],
          db := w.db.leave (writtenTx (storedOrder env req ps)) }) := by
  have hlen : ps.length = req.Products.length := by
    have := congrArg List.length hprod
    simpa [lookupAnswers_length] using this.symm
  have hres := resolveItems_ok env req.Products ps
    { w with calls := w.calls ++ [Call.getAccount req.AccountId] } [] (F64.fin 0) hprod
  have hclean : env.faults.clean (storedOrder env req ps).Products.length := by
    simpa [storedOrder, lineItems_length ps req.Products hlen] using hput
  have hw := PutOrder_clean env.faults w.db (storedOrder env req ps) hclean
  simp only [grpcServer.PostOrder, hacc, hres, orderService.PostOrder, List.nil_append]
  have hw2 : postgresRepository.PutOrder env.faults w.db
      { ID := env.ksuid, AccountID := req.AccountId, CreatedAt := env.now, Total := F64.fin 0,
        Products := lineItems ps req.Products } =
      (Option.none, w.db.leave (writtenTx (storedOrder env req ps))) := hw
  simp only [hw2]
  cases hb : env.getProducts (callsBeforeBatch w req (storedOrder env req ps)) (batchIDs ps req) with
  | error e =>
    simp [callsBeforeBatch, batchIDs, storedOrder] at hb ⊢
    simp [hb]
  | ok cps =>
    simp [callsBeforeBatch, batchIDs, storedOrder] at hb ⊢
    simp [hb, pricedTotal]

theorem execItems_none (f : Faults) (oid : String) (ps : List OrderedProduct) :
    ∀ (k : Nat) (t t2 : Tx), execItems f oid k ps t = (Option.none, t2) →
      t2 = { t with items := t.items ++ ps.map (fun p =>
        { orderID := oid, productID := p.ProductID, quantity := p.Quantity }) } := by
  induction ps with
  | nil => intro k t t2 h; simp [execItems] at h; simp [← h]
  | cons p ps ih =>
    intro k t t2 h
    simp only [execItems] at h
    cases hx : f.exec k with
    | some e => simp [hx] at h
    | none =>
      simp only [hx] at h
      have := ih _ _ _ h
      simp [this]

/-- A failing loop of execs returns the first exec error and keeps the transaction open. -/
theorem execItems_fail (f : Faults) (oid : String) (ps : List OrderedProduct) :
    ∀ (k i : Nat) (t : Tx) (e : Err), i < ps.length →
      (∀ j, j < i → f.exec (k + j) = Option.none) → f.exec (k + i) = some e →
      ∃ t2, execItems f oid k ps t = (some e, t2) ∧ t2.status = t.status := by
  induction ps with
  | nil => intro k i t e hi; simp at hi
  | cons p ps ih =>
    intro k i t e hi hj he
    cases i with
    | zero =>
      have he0 : f.exec k = some e := by simpa using he
      exact ⟨t, by simp [execItems, he0], rfl⟩
    | succ i =>
      have h0 : f.exec k = Option.none := by simpa using hj 0 (by omega)
      have hj2 : ∀ j, j < i → f.exec (k + 1 + j) = Option.none := by
        intro j hji
        have := hj (j + 1) (by omega)
        rwa [show k + 1 + j = k + (j + 1) by omega]
      have he2 : f.exec (k + 1 + i) = some e := by
        rwa [show k + 1 + i = k + (i + 1) by omega]
      obtain ⟨t2, h2, hs⟩ := ih (k + 1) i
        { t with items := t.items ++
            [{ orderID := oid, productID := p.ProductID, quantity := p.Quantity }] } e
        (by simpa using hi) hj2 he2
      exact ⟨t2, by simp [execItems, h0, h2], hs⟩

/-! ## Creation: pricing and persistence -/

/-- The `float64` literal 9.99. -/
theorem ofRat_999 : F64.ofRat (999 / 100) = F64.fin (5623870034678907 / 562949953421312) := by
  rw [F64.ofRat_pos (999 / 100) 3 5623870034678906 5623870034678907 (by norm_num) (by norm_num)
    (by norm_num) (by norm_num) (by norm_num) (by norm_num)
    (Or.inr (Or.inl ⟨by norm_num, by norm_num⟩)) (by norm_num)]
  norm_num

/-- The `float64` literal 19.98. -/
theorem ofRat_1998 : F64.ofRat (1998 / 100) = F64.fin (5623870034678907 / 281474976710656) := by
  rw [F64.ofRat_pos (1998 / 100) 4 5623870034678906 5623870034678907 (by norm_num) (by norm_num)
    (by norm_num) (by norm_num) (by norm_num) (by norm_num)
    (Or.inr (Or.inl ⟨by norm_num, by norm_num⟩)) (by norm_num)]
  norm_num

/-- The `float64` literal 0.1. -/
theorem ofRat_tenth : F64.ofRat (1 / 10) = F64.fin (3602879701896397 / 36028797018963968) := by
  rw [F64.ofRat_pos (1 / 10) (-4) 7205759403792793 7205759403792794 (by norm_num) (by norm_num)
    (by norm_num) (by norm_num) (by norm_num) (by norm_num)
    (Or.inr (Or.inl ⟨by norm_num, by norm_num⟩)) (by norm_num)]
  norm_num

/-- A value with 53 significant bits between 16 and 32 is a `float64`. -/
theorem ofRat_1998_exact :
    F64.ofRat (5623870034678907 / 281474976710656) =
      F64.fin (5623870034678907 / 281474976710656) := by
  rw [F64.ofRat_pos _ 4 5623870034678907 5623870034678907 (by norm_num) (by norm_num)
    (by norm_num) (by norm_num) (by norm_num) (by norm_num)
    (Or.inl ⟨by norm_num, rfl⟩) (by norm_num)]
  norm_num

/-- On the example request the accumulated total is the `float64` 19.98: doubling 9.99 and
adding it to 0.0 need no rounding. -/
theorem pricedTotal_exReq : pricedTotal [exP1] exReq.Products = F64.ofRat (1998 / 100) := by
  have hmul : F64.mul (F64.fin (5623870034678907 / 562949953421312)) (F64.fin ((2 : Nat) : ℚ)) =
      F64.fin (5623870034678907 / 281474976710656) := by
    have h : (5623870034678907 / 562949953421312 : ℚ) * ((2 : Nat) : ℚ) =
        5623870034678907 / 281474976710656 := by norm_num
    simp only [F64.mul, h, ofRat_1998_exact]
  have hadd : F64.add (F64.fin 0) (F64.fin (5623870034678907 / 281474976710656)) =
      F64.fin (5623870034678907 / 281474976710656) := by
    simp only [F64.add, zero_add, ofRat_1998_exact]
  simp only [pricedTotal, exReq, exP1, accumulate, F64.ofUint32, ofRat_999, hmul, hadd, ofRat_1998]

/-- On the request `(p1, 3)` at the price 0.1 the accumulated total is 0.30000000000000004: the
product of the `float64` 0.1 and 3 lies halfway between two `float64` values and is rounded to
the even one, above it. -/
theorem pricedTotal_exReqThree :
    pricedTotal [exPTenth] exReqThree.Products =
      F64.fin (10808639105689192 / 36028797018963968) := by
  have hmul : F64.mul (F64.fin (3602879701896397 / 36028797018963968)) (F64.fin ((3 : Nat) : ℚ)) =
      F64.fin (10808639105689192 / 36028797018963968) := by
    simp only [F64.mul]
    rw [F64.ofRat_pos _ (-2) 5404319552844595 5404319552844596 (by norm_num) (by norm_num)
      (by norm_num) (by norm_num) (by norm_num) (by norm_num)
      (Or.inr (Or.inr ⟨by norm_num, by norm_num⟩)) (by norm_num)]
    norm_num
  have hadd : F64.add (F64.fin 0) (F64.fin (10808639105689192 / 36028797018963968)) =
      F64.fin (10808639105689192 / 36028797018963968) := by
    simp only [F64.add, zero_add]
    rw [F64.ofRat_pos _ (-2) 5404319552844596 5404319552844596 (by norm_num) (by norm_num)
      (by norm_num) (by norm_num) (by norm_num) (by norm_num)
      (Or.inl ⟨by norm_num, rfl⟩) (by norm_num)]
    norm_num
  simp only [pricedTotal, exReqThree, exPTenth, accumulate, F64.ofUint32, ofRat_tenth, hmul, hadd]

/-- C1, counterexample. One item `(p1, 3)` whose lookup returns the price 0.1, that is the
`float64` 3602879701896397 / 2 ^ 55: the total of the returned order is
10808639105689192 / 2 ^ 55 (0.30000000000000004), which is not that price times 3. -/
theorem PostOrder_total_is_rounded :
    (∃ resp w2, grpcServer.PostOrder exEnvTenth exWorld exReqThree = (Except.ok resp, w2) ∧
        resp.Order.Total = F64.fin (10808639105689192 / 36028797018963968)) ∧
      exPTenth.Price = F64.fin (3602879701896397 / 36028797018963968) ∧
      (10808639105689192 / 36028797018963968 : ℚ) ≠ 3602879701896397 / 36028797018963968 * 3 := by
  have hacc : exEnvTenth.getAccount exWorld.calls exReqThree.AccountId =
      Except.ok { ID := "acct-1", Name := "ann" } := by
    simp [exEnvTenth, exEnv, exReqThree]
  have hprod : lookupAnswers exEnvTenth (exWorld.calls ++ [Call.getAccount exReqThree.AccountId])
      exReqThree.Products = [exPTenth].map Except.ok := by
    simp [lookupAnswers, exEnvTenth, exReqThree]
  refine ⟨?_, ofRat_tenth, by norm_num⟩
  rw [PostOrder_of_success exEnvTenth exWorld exReqThree _ [exPTenth] hacc hprod
    (Faults.clean_none _), pricedTotal_exReqThree]
  have hb : exEnvTenth.getProducts
      (callsBeforeBatch exWorld exReqThree (storedOrder exEnvTenth exReqThree [exPTenth]))
      (batchIDs [exPTenth] exReqThree) = Except.ok [{ exP1 with Price := F64.fin 5 }] := rfl
  rw [hb]
  exact ⟨_, _, rfl, rfl⟩

/-- C1, amended. When the account lookup, every individual product lookup and the store write
succeed, the total of the order `PostOrder` returns is the `float64` accumulation that starts
from 0.0 and, over the request items in order, adds the price the item's own `GetProduct`
lookup returned times the requested quantity, each product and each sum rounded to the nearest
`float64`; whatever the batch call of step 5 returns, a returned order carries this total, and
an order is returned whenever that batch call answers. -/
theorem PostOrder_total_is_accumulated (env : Env) (w : World) (req : pb.PostOrderRequest)
    (a : account.Account) (ps : List catalog.Product)
    (hacc : env.getAccount w.calls req.AccountId = Except.ok a)
    (hprod : lookupAnswers env (w.calls ++ [Call.getAccount req.AccountId]) req.Products =
      ps.map Except.ok)
    (hput : env.faults.clean req.Products.length) :
    (∀ resp w2, grpcServer.PostOrder env w req = (Except.ok resp, w2) →
        resp.Order.Total = accumulate (F64.fin 0) ps req.Products) ∧
      (∀ cps, env.getProducts (callsBeforeBatch w req (storedOrder env req ps)) (batchIDs ps req) =
          Except.ok cps →
        ∃ resp w2, grpcServer.PostOrder env w req = (Except.ok resp, w2) ∧
          resp.Order.Total = accumulate (F64.fin 0) ps req.Products) := by
  have hmain := PostOrder_of_success env w req a ps hacc hprod hput
  constructor
  · intro resp w2 h
    rw [hmain] at h
    cases hb : env.getProducts (callsBeforeBatch w req (storedOrder env req ps)) (batchIDs ps req) with
    | error e => simp [hb] at h
    | ok cps =>
      simp only [hb, Prod.mk.injEq, Except.ok.injEq] at h
      rw [← h.1]
      rfl
  · intro cps hb
    rw [hmain, hb]
    exact ⟨_, _, rfl, rfl⟩

/-- C1, amended, on the example of the specification: one item `(p1, 2)` priced 9.99 gives the
`float64` 19.98, although the batch call reports the price 5. -/
theorem PostOrder_total_is_accumulated_witness :
    exEnv.getAccount exWorld.calls exReq.AccountId = Except.ok { ID := "acct-1", Name := "ann" } ∧
      exEnv.faults.clean exReq.Products.length ∧
      ∃ resp w2, grpcServer.PostOrder exEnv exWorld exReq = (Except.ok resp, w2) ∧
        resp.Order.Total = F64.ofRat (1998 / 100) := by
  have hacc : exEnv.getAccount exWorld.calls exReq.AccountId =
      Except.ok { ID := "acct-1", Name := "ann" } := by
    simp [exEnv, exReq]
  have hprod : lookupAnswers exEnv (exWorld.calls ++ [Call.getAccount exReq.AccountId])
      exReq.Products = [exP1].map Except.ok := by
    simp [lookupAnswers, exEnv, exReq]
  have hput : exEnv.faults.clean exReq.Products.length := Faults.clean_none _
  obtain ⟨resp, w2, h1, h2⟩ :=
    (PostOrder_total_is_accumulated exEnv exWorld exReq _ [exP1] hacc hprod hput).2
      [{ exP1 with Price := F64.fin 5 }] (by simp [exEnv])
  refine ⟨hacc, hput, resp, w2, h1, ?_⟩
  rw [h2]
  exact pricedTotal_exReq

/-- C2. On the example request the order handed to `PutOrder`, and so the header row written,
carries the total 0, while the response carries the priced sum 19.98: the server sets the total
on the order only after the service has written it. -/
theorem PostOrder_stores_total_zero :
    grpcServer.PostOrder exEnv exWorld exReq =
      (Except.ok { Order :=
          { Id := "order-1", AccountId := "acct-1", Total := F64.ofRat (1998 / 100), CreatedAt := 1000,
            Products := [{ Id := "p1", Name := "pen", Description := "a pen", Price := F64.fin 5, Quantity := 2 }] } },
        { calls :=
            [Call.getAccount "acct-1", Call.getProduct "p1",
              Call.putOrder
                { ID := "order-1", AccountID := "acct-1", CreatedAt := 1000, Total := F64.fin 0,
                  Products := [{ ProductID := "p1", Quantity := 2 }] },
              Call.getProducts ["p1"]],
          db :=
            { orders := [], orderProducts := [],
              txs := [{
                status := TxStatus.begun,
                headers := [{ id := "order-1", accountID := "acct-1", createdAt := 1000, totalPrice := F64.fin 0 }],
                items := [{ orderID := "order-1", productID := "p1", quantity := 2 }] }] } }) := by
  have hacc : exEnv.getAccount exWorld.calls exReq.AccountId =
      Except.ok { ID := "acct-1", Name := "ann" } := by
    simp [exEnv, exReq]
  have hprod : lookupAnswers exEnv (exWorld.calls ++ [Call.getAccount exReq.AccountId])
      exReq.Products = [exP1].map Except.ok := by
    simp [lookupAnswers, exEnv, exReq]
  rw [PostOrder_of_success exEnv exWorld exReq _ [exP1] hacc hprod (Faults.clean_none _),
    pricedTotal_exReq]
  simp [exEnv, exWorld, exReq, exP1, exDB, callsBeforeBatch, storedOrder, batchIDs, lineItems,
    enrich, firstWithID, toUint32, DB.leave, writtenTx, headerRow, itemRows]

/-- C3. When `PutOrder` returns no error, the transaction that holds the header insert and all
line-item inserts is still open (`begun`): it has not been committed, and neither the header row
nor any line-item row has been added to the visible tables. -/
theorem PutOrder_ok_leaves_tx_uncommitted (f : Faults) (db : DB) (o : Order)
    (h : (postgresRepository.PutOrder f db o).1 = Option.none) :
    (postgresRepository.PutOrder f db o).2 =
        { orders := db.orders, orderProducts := db.orderProducts,
          txs := db.txs ++ [{ status := TxStatus.begun, headers := [headerRow o], items := itemRows o }] } := by
  cases hb : f.begin with
  | some e => simp [postgresRepository.PutOrder, hb] at h
  | none =>
    cases hh : f.header with
    | some e => simp [postgresRepository.PutOrder, hb, hh] at h
    | none =>
      cases hp : f.prepare with
      | some e => simp [postgresRepository.PutOrder, hb, hh, hp] at h
      | none =>
        simp only [postgresRepository.PutOrder, hb, hh, hp] at h ⊢
        generalize hx : execItems f o.ID 0 o.Products _ = r at h ⊢
        obtain ⟨re, t2⟩ := r
        cases re with
        | some e => simp at h
        | none =>
          have ht := execItems_none f o.ID o.Products 0 _ t2 hx
          cases hf : f.flush with
          | some e => simp [hf] at h
          | none => simp [ht, DB.leave, headerRow, itemRows]

/-- C3, on a fault-free write of a two-item order into the empty database. -/
theorem PutOrder_ok_leaves_tx_uncommitted_witness :
    (postgresRepository.PutOrder Faults.none exDB exOrder).1 = Option.none ∧
      (postgresRepository.PutOrder Faults.none exDB exOrder).2 =
        { orders := [], orderProducts := [],
          txs := [{ status := TxStatus.begun, headers := [headerRow exOrder], items := itemRows exOrder }] } := by
  have h : (postgresRepository.PutOrder Faults.none exDB exOrder).1 = Option.none := by
    rw [PutOrder_clean _ _ _ (Faults.clean_none _)]
  exact ⟨h, by simpa [exDB] using PutOrder_ok_leaves_tx_uncommitted Faults.none exDB exOrder h⟩

/-- C4. Wherever `PutOrder` first fails after the transaction has begun (header insert,
statement preparation, the exec of a line item, or the final flush), it returns that error, its
transaction ends rolled back, and the visible tables are what they were before. -/
theorem PutOrder_fail_rolls_back (f : Faults) (db : DB) (o : Order) (pt : FailurePoint) (e : Err)
    (hb : f.begin = Option.none) (hfail : f.failsAt o.Products.length pt e) :
    ∃ t, postgresRepository.PutOrder f db o =
        (some e, { orders := db.orders, orderProducts := db.orderProducts, txs := db.txs ++ [t] }) ∧
      t.status = TxStatus.rolledBack := by
  cases pt with
  | header =>
    have hh : f.header = some e := hfail
    exact ⟨Tx.Rollback { status := TxStatus.begun, headers := [], items := [] },
      by simp [postgresRepository.PutOrder, hb, hh, DB.leave], rfl⟩
  | prepare =>
    obtain ⟨hh, hp⟩ : f.header = Option.none ∧ f.prepare = some e := hfail
    exact ⟨Tx.Rollback { status := TxStatus.begun, headers := [headerRow o], items := [] },
      by simp [postgresRepository.PutOrder, hb, hh, hp, DB.leave, headerRow], rfl⟩
  | exec i =>
    obtain ⟨hh, hp, hi, hj, he⟩ : f.header = Option.none ∧ f.prepare = Option.none ∧
      i < o.Products.length ∧ (∀ j, j < i → f.exec j = Option.none) ∧ f.exec i = some e := hfail
    simp only [postgresRepository.PutOrder, hb, hh, hp]
    generalize hx : execItems f o.ID 0 o.Products _ = r
    obtain ⟨t3, h3, _⟩ := execItems_fail f o.ID o.Products 0 i _ e hi (by simpa using hj)
      (by simpa using he)
    rw [hx] at h3
    subst h3
    exact ⟨t3.Rollback, by simp [DB.leave], rfl⟩
  | flush =>
    obtain ⟨hh, hp, hj, hf⟩ : f.header = Option.none ∧ f.prepare = Option.none ∧
      (∀ j, j < o.Products.length → f.exec j = Option.none) ∧ f.flush = some e := hfail
    simp only [postgresRepository.PutOrder, hb, hh, hp]
    generalize hx : execItems f o.ID 0 o.Products _ = r
    rw [execItems_clean f o.ID o.Products 0 _ (by simpa using hj)] at hx
    subst hx
    exact ⟨Tx.Rollback { status := TxStatus.begun, headers := [headerRow o], items := itemRows o },
      by simp [hf, DB.leave, headerRow, itemRows], rfl⟩

/-- C4, on a write interrupted at the exec of the second line item, after the header insert and
the first line item. -/
theorem PutOrder_fail_rolls_back_witness :
    exFaults.begin = Option.none ∧
      exFaults.failsAt exOrder.Products.length (FailurePoint.exec 1) "connection lost" ∧
      ∃ t, postgresRepository.PutOrder exFaults exDB exOrder =
          (some "connection lost", { orders := [], orderProducts := [], txs := [t] }) ∧
        t.status = TxStatus.rolledBack := by
  have hb : exFaults.begin = Option.none := rfl
  have hfail : exFaults.failsAt exOrder.Products.length (FailurePoint.exec 1) "connection lost" := by
    refine ⟨rfl, rfl, by simp [exOrder], ?_, by simp [exFaults]⟩
    intro j hj
    have : j = 0 := by omega
    simp [this, exFaults]
  exact ⟨hb, hfail, by
    simpa [exDB] using PutOrder_fail_rolls_back exFaults exDB exOrder (FailurePoint.exec 1) _ hb hfail⟩

/-! ## Creation: failures before the write -/

/-- C5. When the individual lookup of at least one requested product fails, `PostOrder` returns
an error (the account lookup's, or that of a failed product lookup), the database is what it was,
and no call made is a store write. -/
theorem PostOrder_lookup_failure_writes_nothing (env : Env) (w : World) (req : pb.PostOrderRequest)
    (h : ∃ e, Except.error e ∈
      lookupAnswers env (w.calls ++ [Call.getAccount req.AccountId]) req.Products) :
    ∃ e made, grpcServer.PostOrder env w req =
        (Except.error e, { calls := w.calls ++ made, db := w.db }) ∧
      (env.getAccount w.calls req.AccountId = Except.error e ∨ Except.error e ∈
        lookupAnswers env (w.calls ++ [Call.getAccount req.AccountId]) req.Products) ∧
      ∀ o, Call.putOrder o ∉ made := by
  cases hacc : env.getAccount w.calls req.AccountId with
  | error e =>
    exact ⟨e, [Call.getAccount req.AccountId], by simp [grpcServer.PostOrder, hacc],
      Or.inl rfl, by simp⟩
  | ok a =>
    obtain ⟨e, k, hm, hr⟩ := resolveItems_fail env req.Products
      { w with calls := w.calls ++ [Call.getAccount req.AccountId] } [] (F64.fin 0) h
    refine ⟨e, Call.getAccount req.AccountId ::
      (req.Products.take k).map (fun item => Call.getProduct item.ProductId), ?_, Or.inr hm, ?_⟩
    · simp [grpcServer.PostOrder, hacc, hr]
    · intro o ho
      rcases List.mem_cons.mp ho with h1 | h1
      · cases h1
      · obtain ⟨item, _, hi⟩ := List.mem_map.mp h1
        cases hi

/-- C5, on a request for one valid and one nonexistent product id. -/
theorem PostOrder_lookup_failure_writes_nothing_witness :
    (∃ e, Except.error e ∈
        lookupAnswers exEnv (exWorld.calls ++ [Call.getAccount exReqMixed.AccountId])
          exReqMixed.Products) ∧
      ∃ e made, grpcServer.PostOrder exEnv exWorld exReqMixed =
          (Except.error e, { calls := exWorld.calls ++ made, db := exWorld.db }) ∧
        (exEnv.getAccount exWorld.calls exReqMixed.AccountId = Except.error e ∨ Except.error e ∈
          lookupAnswers exEnv (exWorld.calls ++ [Call.getAccount exReqMixed.AccountId])
            exReqMixed.Products) ∧
        ∀ o, Call.putOrder o ∉ made := by
  have h : ∃ e, Except.error e ∈
      lookupAnswers exEnv (exWorld.calls ++ [Call.getAccount exReqMixed.AccountId])
        exReqMixed.Products :=
    ⟨"product not found", by simp [lookupAnswers, exEnv, exReqMixed]⟩
  exact ⟨h, PostOrder_lookup_failure_writes_nothing exEnv exWorld exReqMixed h⟩

/-- C6. When the account lookup fails, `PostOrder` returns that error; the account lookup is the
only call it has made (no catalog lookup, no store write) and the database is what it was. -/
theorem PostOrder_account_failure (env : Env) (w : World) (req : pb.PostOrderRequest) (e : Err)
    (h : env.getAccount w.calls req.AccountId = Except.error e) :
    grpcServer.PostOrder env w req =
      (Except.error e, { calls := w.calls ++ [Call.getAccount req.AccountId], db := w.db }) := by
  simp [grpcServer.PostOrder, h]

/-- C6, on a request for an unknown account. -/
theorem PostOrder_account_failure_witness :
    exEnv.getAccount exWorld.calls exReqNoAccount.AccountId = Except.error "account not found" ∧
      grpcServer.PostOrder exEnv exWorld exReqNoAccount =
        (Except.error "account not found", { calls := [Call.getAccount "nobody"], db := exDB }) := by
  have h : exEnv.getAccount exWorld.calls exReqNoAccount.AccountId =
      Except.error "account not found" := by
    simp [exEnv, exReqNoAccount]
  exact ⟨h, PostOrder_account_failure exEnv exWorld exReqNoAccount _ h⟩

theorem resolveItems_calls (env : Env) (items : List pb.PostOrderRequest_OrderProduct) :
    ∀ (w : World) (acc : List OrderedProduct) (tot : F64),
      ∃ k, (resolveItems env items w acc tot).2 =
        { calls := w.calls ++ (items.take k).map (fun item => Call.getProduct item.ProductId),
          db := w.db } := by
  induction items with
  | nil => intro w acc tot; exact ⟨0, by simp [resolveItems]⟩
  | cons item rest ih =>
    intro w acc tot
    cases hg : env.getProduct w.calls item.ProductId with
    | error e => exact ⟨1, by simp [resolveItems, hg]⟩
    | ok p =>
      obtain ⟨k, hk⟩ := ih { w with calls := w.calls ++ [Call.getProduct item.ProductId] }
        (acc ++ [{ ProductID := p.ID, Quantity := (item.Quantity : Int) }])
        (F64.add tot (F64.mul p.Price (F64.ofUint32 item.Quantity)))
      exact ⟨k + 1, by simp [resolveItems, hg, hk]⟩

theorem lineItems_mem (ps : List catalog.Product) :
    ∀ (items : List pb.PostOrderRequest_OrderProduct) (p : OrderedProduct),
      p ∈ lineItems ps items → ∃ item ∈ items, p.Quantity = (item.Quantity : Int) := by
  induction ps with
  | nil => intro items p h; simp [lineItems] at h
  | cons c cs ih =>
    intro items p h
    cases items with
    | nil => simp [lineItems] at h
    | cons item rest =>
      simp only [lineItems, List.zipWith_cons_cons, List.mem_cons] at h
      rcases h with h | h
      · exact ⟨item, by simp, by simp [h]⟩
      · obtain ⟨i, hi, hq⟩ := ih rest p h
        exact ⟨i, List.mem_cons_of_mem _ hi, hq⟩

/-- Every store write a creation makes is of the order built from the answers of the lookups,
one line item per request item. -/
theorem PostOrder_made_calls (env : Env) (w : World) (req : pb.PostOrderRequest) :
    ∃ made, (grpcServer.PostOrder env w req).2.calls = w.calls ++ made ∧
      ∀ o, Call.putOrder o ∈ made →
        ∃ ps : List catalog.Product, ps.length = req.Products.length ∧ o = storedOrder env req ps := by
  cases hacc : env.getAccount w.calls req.AccountId with
  | error e =>
    exact ⟨[Call.getAccount req.AccountId], by simp [grpcServer.PostOrder, hacc], by simp⟩
  | ok a =>
    cases hr : resolveItems env req.Products
        { w with calls := w.calls ++ [Call.getAccount req.AccountId] } [] (F64.fin 0) with
    | mk r w2 =>
      cases r with
      | error e =>
        obtain ⟨k, hk⟩ := resolveItems_calls env req.Products
          { w with calls := w.calls ++ [Call.getAccount req.AccountId] } [] (F64.fin 0)
        rw [hr] at hk
        simp only at hk
        refine ⟨Call.getAccount req.AccountId ::
          (req.Products.take k).map (fun item => Call.getProduct item.ProductId), ?_, ?_⟩
        · simp [grpcServer.PostOrder, hacc, hr, hk]
        · intro o ho
          rcases List.mem_cons.mp ho with h1 | h1
          · cases h1
          · obtain ⟨item, _, hi⟩ := List.mem_map.mp h1
            cases hi
      | ok pt =>
        obtain ⟨products, total⟩ := pt
        obtain ⟨ps, hps⟩ := resolveItems_inv env req.Products _ _ _ _ _ _ hr
        have hlen : ps.length = req.Products.length := by
          have := congrArg List.length hps
          simpa [lookupAnswers_length] using this.symm
        have hok := resolveItems_ok env req.Products ps _ [] (F64.fin 0) hps
        rw [hr] at hok
        simp only [Prod.mk.injEq, Except.ok.injEq, List.nil_append] at hok
        obtain ⟨⟨hprod, _⟩, hw2⟩ := hok
        subst hprod hw2
        have hput : ∀ o, o ∈ [Call.getAccount req.AccountId] ++
            req.Products.map (fun item => Call.getProduct item.ProductId) ++
            [Call.putOrder (storedOrder env req ps)] →
            ∀ o2, o = Call.putOrder o2 → o2 = storedOrder env req ps := by
          intro o ho o2 h2
          subst h2
          simp only [List.mem_append, List.mem_singleton, List.mem_map] at ho
          rcases ho with (h1 | ⟨item, _, hi⟩) | h1
          · cases h1
          · cases hi
          · cases h1; rfl
        cases hp : (postgresRepository.PutOrder env.faults w.db (storedOrder env req ps)).1 with
        | some e =>
          refine ⟨[Call.getAccount req.AccountId] ++
            req.Products.map (fun item => Call.getProduct item.ProductId) ++
            [Call.putOrder (storedOrder env req ps)], ?_, ?_⟩
          · simp only [storedOrder] at hp
            simp [grpcServer.PostOrder, hacc, hr, orderService.PostOrder, hp, storedOrder]
          · intro o ho
            exact ⟨ps, hlen, hput _ ho o rfl⟩
        | none =>
          refine ⟨[Call.getAccount req.AccountId] ++
            req.Products.map (fun item => Call.getProduct item.ProductId) ++
            [Call.putOrder (storedOrder env req ps)] ++ [Call.getProducts (batchIDs ps req)], ?_, ?_⟩
          · simp only [storedOrder] at hp
            simp only [grpcServer.PostOrder, hacc, hr, orderService.PostOrder, hp]
            split <;> simp [storedOrder, batchIDs]
          · intro o ho
            rcases List.mem_append.mp ho with h1 | h1
            · exact ⟨ps, hlen, hput _ h1 o rfl⟩
            · simp at h1

end order

/-! ## The gateway's validation -/

namespace graphql

theorem convertInput_eq (ps : List OrderProductInput) :
    ∀ acc : List order.OrderedProduct,
      convertInput ps acc =
        if ∃ p ∈ ps, p.ID = "" ∨ p.Quantity ≤ 0 then Option.none
        else some (acc ++ ps.map (fun p => { ProductID := p.ID, Quantity := p.Quantity })) := by
  induction ps with
  | nil => intro acc; simp [convertInput]
  | cons p ps ih =>
    intro acc
    by_cases hp : p.ID = "" ∨ p.Quantity ≤ 0
    · simp [convertInput, hp]
    · rw [convertInput, if_neg hp, ih]
      by_cases hr : ∃ q ∈ ps, q.ID = "" ∨ q.Quantity ≤ 0
      · have : ∃ q ∈ p :: ps, q.ID = "" ∨ q.Quantity ≤ 0 := by
          obtain ⟨q, hq, hq2⟩ := hr
          exact ⟨q, List.mem_cons_of_mem _ hq, hq2⟩
        rw [if_pos hr, if_pos this]
      · have : ¬ ∃ q ∈ p :: ps, q.ID = "" ∨ q.Quantity ≤ 0 := by
          rintro ⟨q, hq, hq2⟩
          rcases List.mem_cons.mp hq with h1 | h1
          · exact hp (h1 ▸ hq2)
          · exact hr ⟨q, h1, hq2⟩
        rw [if_neg hr, if_neg this]
        simp

/-- C7. `CreateOrder` returns `ErrValidParameters` without calling the order client when the
account id is empty, the line-item list is empty, or some line item has an empty product id or a
quantity `≤ 0`; otherwise it makes exactly one call to the order client, with the account id and
the request's (product id, quantity) pairs in order, and returns that call's error or order. -/
theorem CreateOrder_validation
    (postOrder : List ClientCall → String → List order.OrderedProduct → Except Err order.Order)
    (calls : List ClientCall) (input : OrderInput) :
    mutationResolver.CreateOrder postOrder calls input =
      if input.AccountID = "" ∨ input.Products = [] ∨
          ∃ p ∈ input.Products, p.ID = "" ∨ p.Quantity ≤ 0 then
        (Except.error ErrValidParameters, calls)
      else
        (match postOrder calls input.AccountID
            (input.Products.map (fun p => { ProductID := p.ID, Quantity := p.Quantity })) with
          | Except.error e => Except.error e
          | Except.ok r =>
            Except.ok
              { ID := r.ID, CreatedAt := r.CreatedAt, TotalAmount := r.Total,
                Products := r.Products.map (fun p => { ID := p.ProductID, Quantity := p.Quantity }) },
          calls ++ [ClientCall.postOrder input.AccountID
            (input.Products.map (fun p => { ProductID := p.ID, Quantity := p.Quantity }))]) := by
  unfold mutationResolver.CreateOrder
  by_cases h1 : input.AccountID = "" ∨ input.Products.length = 0
  · have : input.AccountID = "" ∨ input.Products = [] ∨
        ∃ p ∈ input.Products, p.ID = "" ∨ p.Quantity ≤ 0 := by
      rcases h1 with h | h
      · exact Or.inl h
      · exact Or.inr (Or.inl (List.length_eq_zero.mp h))
    rw [if_pos h1, if_pos this]
  · rw [if_neg h1, convertInput_eq]
    have hA : input.AccountID ≠ "" := fun h => h1 (Or.inl h)
    have hP : input.Products ≠ [] := fun h => h1 (Or.inr (by simp [h]))
    by_cases h2 : ∃ p ∈ input.Products, p.ID = "" ∨ p.Quantity ≤ 0
    · rw [if_pos h2, if_pos (Or.inr (Or.inr h2))]
    · have : ¬ (input.AccountID = "" ∨ input.Products = [] ∨
          ∃ p ∈ input.Products, p.ID = "" ∨ p.Quantity ≤ 0) := by
        rintro (h | h | h)
        · exact hA h
        · exact hP h
        · exact h2 h
      rw [if_neg h2, if_neg this]
      simp only [List.nil_append]
      cases postOrder calls input.AccountID
        (input.Products.map (fun p => { ProductID := p.ID, Quantity := p.Quantity })) <;> rfl

end graphql

/-! ## Creation: what reaches the store -/

namespace order

/-- C8, counterexample. The order server accepts a request whose only line item has the quantity
0: it makes its outbound calls and hands `PutOrder` an order with a line item of quantity 0. -/
theorem PostOrder_hands_zero_quantity_to_store :
    (grpcServer.PostOrder exEnv exWorld exReqZero).2.calls =
      [Call.getAccount "acct-1", Call.getProduct "p1",
        Call.putOrder
          { ID := "order-1", AccountID := "acct-1", CreatedAt := 1000, Total := F64.fin 0,
            Products := [{ ProductID := "p1", Quantity := 0 }] },
        Call.getProducts ["p1"]] := by
  have hacc : exEnv.getAccount exWorld.calls exReqZero.AccountId =
      Except.ok { ID := "acct-1", Name := "ann" } := by
    simp [exEnv, exReqZero]
  have hprod : lookupAnswers exEnv (exWorld.calls ++ [Call.getAccount exReqZero.AccountId])
      exReqZero.Products = [exP1].map Except.ok := by
    simp [lookupAnswers, exEnv, exReqZero]
  rw [PostOrder_of_success exEnv exWorld exReqZero _ [exP1] hacc hprod (Faults.clean_none _)]
  simp [exEnv, exWorld, exReqZero, exP1, callsBeforeBatch, storedOrder, batchIDs, lineItems]

/-- C8, amended. The order server does not validate; for a request with a non-empty account id,
at least one line item and every quantity positive, every order it hands to `PutOrder` has a
non-empty account id, at least one line item, and every quantity positive. -/
theorem PostOrder_hands_valid_order_of_valid_request (env : Env) (w : World)
    (req : pb.PostOrderRequest) (hacct : req.AccountId ≠ "") (hne : req.Products ≠ [])
    (hq : ∀ item ∈ req.Products, 0 < item.Quantity) :
    ∃ made, (grpcServer.PostOrder env w req).2.calls = w.calls ++ made ∧
      ∀ o, Call.putOrder o ∈ made →
        o.AccountID ≠ "" ∧ o.Products ≠ [] ∧ ∀ p ∈ o.Products, 0 < p.Quantity := by
  obtain ⟨made, hmade, hput⟩ := PostOrder_made_calls env w req
  refine ⟨made, hmade, ?_⟩
  intro o ho
  obtain ⟨ps, hlen, rfl⟩ := hput o ho
  refine ⟨hacct, ?_, ?_⟩
  · intro h
    have h2 := lineItems_length ps req.Products hlen
    simp only [storedOrder] at h
    rw [h] at h2
    exact hne (List.length_eq_zero.mp h2.symm)
  · intro p hp
    obtain ⟨item, hi, hpq⟩ := lineItems_mem ps req.Products p hp
    rw [hpq]
    exact_mod_cast hq item hi

/-- C8, amended, on the example request: the order written has the one line item `(p1, 2)`. -/
theorem PostOrder_hands_valid_order_of_valid_request_witness :
    exReq.AccountId ≠ "" ∧ exReq.Products ≠ [] ∧ (∀ item ∈ exReq.Products, 0 < item.Quantity) ∧
      ∃ made, (grpcServer.PostOrder exEnv exWorld exReq).2.calls = exWorld.calls ++ made ∧
        ∀ o, Call.putOrder o ∈ made →
          o.AccountID ≠ "" ∧ o.Products ≠ [] ∧ ∀ p ∈ o.Products, 0 < p.Quantity := by
  have h1 : exReq.AccountId ≠ "" := by simp [exReq]
  have h2 : exReq.Products ≠ [] := by simp [exReq]
  have h3 : ∀ item ∈ exReq.Products, 0 < item.Quantity := by simp [exReq]
  exact ⟨h1, h2, h3, PostOrder_hands_valid_order_of_valid_request exEnv exWorld exReq h1 h2 h3⟩

/-! ## Retrieval: the grouping loop -/

theorem scanLoop_ok (rows : List Row) :
    ∀ s : LoopState, scanLoop (rows.map Except.ok) s = Except.ok (rows.foldl groupStep s) := by
  induction rows with
  | nil => intro s; rfl
  | cons r rs ih => intro s; simp [scanLoop, ih]

theorem groups_cons_head (r : Row) (rs : List Row) :
    ∃ t gs, groups (r :: rs) = (r, t) :: gs := by
  simp only [groups]
  cases groups rs with
  | nil => exact ⟨_, _, rfl⟩
  | cons g gs =>
    by_cases h : r.orderID = g.1.orderID
    · exact ⟨g.1 :: g.2, gs, by simp [h]⟩
    · exact ⟨[], g :: gs, by simp [h]⟩

/-- Opening a fresh order at row `r` and closing it over the groups of the rows behind `r` gives
the orders of the groups of `r` and those rows. -/
theorem closeWith_fresh (r : Row) (rs : List Row) :
    closeWith
        { ID := r.orderID, AccountID := r.accountID, CreatedAt := r.createdAt, Total := r.total,
          Products := [] }
        [r.item] (groups rs) = (groups (r :: rs)).map orderOfGroup := by
  simp only [groups]
  cases groups rs with
  | nil => simp [closeWith, orderOfGroup]
  | cons g gs =>
    by_cases h : r.orderID = g.1.orderID
    · simp [closeWith, orderOfGroup, h]
    · simp [closeWith, orderOfGroup, h]

theorem closeWith_same (last : Order) (ps : List OrderedProduct) (r : Row) (rs : List Row)
    (h : last.ID = r.orderID) :
    closeWith last ps (groups (r :: rs)) = closeWith last (ps ++ [r.item]) (groups rs) := by
  simp only [groups]
  cases groups rs with
  | nil => simp [closeWith, h]
  | cons g gs =>
    by_cases hg : r.orderID = g.1.orderID
    · simp [closeWith, h, hg]
    · simp [closeWith, h, hg]

theorem closeWith_other (last : Order) (ps : List OrderedProduct) (r : Row) (rs : List Row)
    (h : last.ID ≠ r.orderID) :
    closeWith last ps (groups (r :: rs)) =
      { last with Products := ps } :: (groups (r :: rs)).map orderOfGroup := by
  obtain ⟨t, gs, hg⟩ := groups_cons_head r rs
  rw [hg]
  simp [closeWith, h]

theorem finishLoop_foldl (rows : List Row) :
    ∀ (s : LoopState) (last : Order), s.lastOrder = some last →
      finishLoop (rows.foldl groupStep s) = s.orders ++ closeWith last s.products (groups rows) := by
  induction rows with
  | nil =>
    intro s last h
    simp [finishLoop, h, groups, closeWith]
  | cons r rs ih =>
    intro s last h
    by_cases hid : last.ID = r.orderID
    · have hs : groupStep s r = { s with products := s.products ++ [r.item] } := by
        simp [groupStep, h, hid, Row.item]
      rw [List.foldl_cons, hs, ih _ last (by simpa using h), closeWith_same last _ r rs hid]
    · have hs : groupStep s r =
          { orders := s.orders ++ [{ last with Products := s.products }],
            lastOrder := some
              { ID := r.orderID, AccountID := r.accountID, CreatedAt := r.createdAt,
                Total := r.total, Products := [] },
            products := [r.item] } := by
        simp [groupStep, h, hid, Row.item]
      rw [List.foldl_cons, hs, ih _ _ rfl, closeWith_other last _ r rs hid, closeWith_fresh]
      simp

/-- The grouping loop returns the orders of the maximal runs of rows sharing an order id. -/
theorem GetOrdersForAccount_eq_groups (rows : List Row) :
    postgresRepository.GetOrdersForAccount (Except.ok (rows.map Except.ok)) =
      Except.ok ((groups rows).map orderOfGroup) := by
  simp only [postgresRepository.GetOrdersForAccount, scanLoop_ok]
  cases rows with
  | nil => simp [finishLoop, groups]
  | cons r rs =>
    have hs : groupStep { orders := [], lastOrder := Option.none, products := [] } r =
        { orders := [],
          lastOrder := some
            { ID := r.orderID, AccountID := r.accountID, CreatedAt := r.createdAt,
              Total := r.total, Products := [] },
          products := [r.item] } := by
      simp [groupStep, Row.item]
    rw [List.foldl_cons, hs, finishLoop_foldl rs _ _ rfl, closeWith_fresh]
    simp

theorem ungroup_groups (rows : List Row) : ungroup (groups rows) = rows := by
  induction rows with
  | nil => rfl
  | cons r rs ih =>
    simp only [groups]
    cases hg : groups rs with
    | nil =>
      rw [hg] at ih
      simp [ungroup, ← ih]
    | cons g gs =>
      rw [hg] at ih
      by_cases h : r.orderID = g.1.orderID
      · simp [h, ungroup, ← ih]
      · simp [h, ungroup, ← ih]

theorem groups_same_id (rows : List Row) :
    ∀ g ∈ groups rows, ∀ x ∈ g.2, x.orderID = g.1.orderID := by
  induction rows with
  | nil => intro g hg; simp [groups] at hg
  | cons r rs ih =>
    intro g hg x hx
    simp only [groups] at hg
    cases hgs : groups rs with
    | nil =>
      simp [hgs] at hg
      subst hg
      simp at hx
    | cons g0 gs =>
      rw [hgs] at ih hg
      by_cases h : r.orderID = g0.1.orderID
      · simp only [h, if_true, List.mem_cons] at hg
        rcases hg with hg | hg
        · subst hg
          simp only [List.mem_cons] at hx
          rcases hx with hx | hx
          · simp [hx, h]
          · simp [ih g0 (by simp) x hx, h]
        · exact ih g (by simp [hg]) x hx
      · simp only [h, if_false, List.mem_cons] at hg
        rcases hg with hg | hg | hg
        · subst hg
          simp at hx
        · exact ih g (by simp [hg]) x hx
        · exact ih g (by simp [hg]) x hx

theorem groups_chain (rows : List Row) :
    List.Chain' (fun a b : Row × List Row => a.1.orderID ≠ b.1.orderID) (groups rows) := by
  induction rows with
  | nil => simp [groups]
  | cons r rs ih =>
    simp only [groups]
    cases hgs : groups rs with
    | nil => simp
    | cons g0 gs =>
      rw [hgs] at ih
      by_cases h : r.orderID = g0.1.orderID
      · simp only [h, if_true]
        cases gs with
        | nil => simp
        | cons g1 gs =>
          rw [List.chain'_cons] at ih ⊢
          exact ⟨by simpa [h] using ih.1, ih.2⟩
      · simp only [h, if_false]
        rw [List.chain'_cons]
        exact ⟨h, ih⟩

theorem groups_same_header (rows : List Row)
    (hc : List.Chain' (fun a b : Row => a.orderID = b.orderID → a.sameHeader b) rows) :
    ∀ g ∈ groups rows, ∀ x ∈ g.2, g.1.sameHeader x := by
  induction rows with
  | nil => intro g hg; simp [groups] at hg
  | cons r rs ih =>
    intro g hg x hx
    cases rs with
    | nil =>
      simp [groups] at hg
      subst hg
      simp at hx
    | cons r2 rs2 =>
      rw [List.chain'_cons] at hc
      have ih2 := ih hc.2
      obtain ⟨t, gs, hgs⟩ := groups_cons_head r2 rs2
      rw [groups, hgs] at hg
      rw [hgs] at ih2
      by_cases h : r.orderID = r2.orderID
      · simp only [h, if_true, List.mem_cons] at hg
        have h12 : r.sameHeader r2 := hc.1 h
        rcases hg with hg | hg
        · subst hg
          simp only [List.mem_cons] at hx
          rcases hx with hx | hx
          · subst hx; exact h12
          · have h2x : r2.sameHeader x := ih2 (r2, t) (by simp) x hx
            exact ⟨h12.1.trans h2x.1, h12.2.1.trans h2x.2.1, h12.2.2.1.trans h2x.2.2.1,
              h12.2.2.2.trans h2x.2.2.2⟩
        · exact ih2 g (by simp [hg]) x hx
      · simp only [h, if_false, List.mem_cons] at hg
        rcases hg with hg | hg | hg
        · subst hg
          simp at hx
        · exact ih2 g (by simp [hg]) x hx
        · exact ih2 g (by simp [hg]) x hx

theorem flattenOrders_groups (gs : List (Row × List Row))
    (h : ∀ g ∈ gs, ∀ x ∈ g.2, g.1.sameHeader x) :
    flattenOrders (gs.map orderOfGroup) = ungroup gs := by
  induction gs with
  | nil => rfl
  | cons g gs ih =>
    have hg : ∀ x ∈ g.2, g.1.sameHeader x := h g (by simp)
    have ht : g.2.map (fun x : Row =>
        ({ orderID := g.1.orderID, accountID := g.1.accountID, createdAt := g.1.createdAt,
           total := g.1.total, productID := x.productID, quantity := x.quantity } : Row)) = g.2 := by
      conv_rhs => rw [← List.map_id g.2]
      apply List.map_congr_left
      intro x hx
      obtain ⟨h1, h2, h3, h4⟩ := hg x hx
      simp [h1, h2, h3, h4]
    simp only [List.map_cons, flattenOrders, ungroup, orderOfGroup, Row.item, List.map_map]
    rw [ih (fun g2 hg2 => h g2 (List.mem_cons_of_mem _ hg2))]
    simp only [Function.comp_def, List.cons_append, List.cons.injEq, List.append_cancel_right_eq,
      true_and]
    exact ht

theorem flattenOrders_groups_key (gs : List (Row × List Row))
    (h : ∀ g ∈ gs, ∀ x ∈ g.2, x.orderID = g.1.orderID) :
    (flattenOrders (gs.map orderOfGroup)).map Row.key = (ungroup gs).map Row.key := by
  induction gs with
  | nil => rfl
  | cons g gs ih =>
    have hg : ∀ x ∈ g.2, x.orderID = g.1.orderID := h g (by simp)
    simp only [List.map_cons, flattenOrders, ungroup, orderOfGroup, Row.item, List.map_map,
      List.map_append, List.cons_append]
    rw [ih (fun g2 hg2 => h g2 (List.mem_cons_of_mem _ hg2))]
    simp only [Function.comp_def, Row.key, List.cons.injEq, List.append_cancel_right_eq, true_and]
    apply List.map_congr_left
    intro x hx
    simp [Row.key, Row.item, hg x hx]

theorem orderOfGroup_products_ne_nil (gs : List (Row × List Row)) :
    ∀ o ∈ gs.map orderOfGroup, o.Products ≠ [] := by
  intro o ho
  obtain ⟨g, _, rfl⟩ := List.mem_map.mp ho
  simp [orderOfGroup]

/-- On every sequence of rows the grouping loop returns the orders of a division of the rows
into consecutive non-empty groups, each of one order id: every order has the header fields of
the first row of its group and one line item per row of the group; adjacent orders have
different ids; flattening the result reproduces the order id, product id and quantity of every
row in sequence, and reproduces the rows exactly when adjacent rows that share an order id also
share account id, created-at and total. -/
theorem GetOrdersForAccount_groups_rows (rows : List Row) :
    ∃ gs : List (Row × List Row),
      postgresRepository.GetOrdersForAccount (Except.ok (rows.map Except.ok)) =
          Except.ok (gs.map orderOfGroup) ∧
        ungroup gs = rows ∧
        (∀ g ∈ gs, ∀ x ∈ g.2, x.orderID = g.1.orderID) ∧
        (∀ o ∈ gs.map orderOfGroup, o.Products ≠ []) ∧
        List.Chain' (fun a b : Order => a.ID ≠ b.ID) (gs.map orderOfGroup) ∧
        (flattenOrders (gs.map orderOfGroup)).map Row.key = rows.map Row.key ∧
        (List.Chain' (fun a b : Row => a.orderID = b.orderID → a.sameHeader b) rows →
          flattenOrders (gs.map orderOfGroup) = rows) := by
  refine ⟨groups rows, GetOrdersForAccount_eq_groups rows, ungroup_groups rows,
    groups_same_id rows, orderOfGroup_products_ne_nil _, ?_, ?_, ?_⟩
  · rw [List.chain'_map]
    exact groups_chain rows
  · rw [flattenOrders_groups_key _ (groups_same_id rows), ungroup_groups]
  · intro hc
    rw [flattenOrders_groups _ (groups_same_header rows hc), ungroup_groups]

/-- In the rows of a join over a table with unique order ids, rows that share an order id
share the whole header. -/
theorem IsJoin.sameHeader (orders : List HeaderRow) (rows : List Row) (h : IsJoin orders rows) :
    ∀ a ∈ rows, ∀ b ∈ rows, a.orderID = b.orderID → a.sameHeader b := by
  intro a ha b hb hid
  have heq : a.header = b.header :=
    List.inj_on_of_nodup_map h.1 (h.2 a ha) (h.2 b hb) hid
  simp only [Row.header, HeaderRow.mk.injEq] at heq
  exact heq

/-- C9. For every sequence of joined rows, the grouping loop of `GetOrdersForAccount` returns
orders such that (i) flattening them back into rows gives the input rows exactly, in sequence;
(ii) every order has at least one line item; (iii) adjacent orders have different ids; (iv) the
orders are those of a division of the rows into consecutive groups of one order id each, every
order with the header fields of the first row of its group and one line item per row. -/
theorem GetOrdersForAccount_regroups_join (orders : List HeaderRow) (rows : List Row)
    (hjoin : IsJoin orders rows) :
    ∃ gs : List (Row × List Row),
      postgresRepository.GetOrdersForAccount (Except.ok (rows.map Except.ok)) =
          Except.ok (gs.map orderOfGroup) ∧
        flattenOrders (gs.map orderOfGroup) = rows ∧
        (∀ o ∈ gs.map orderOfGroup, o.Products ≠ []) ∧
        List.Chain' (fun a b : Order => a.ID ≠ b.ID) (gs.map orderOfGroup) ∧
        ungroup gs = rows ∧
        (∀ g ∈ gs, ∀ x ∈ g.2, x.orderID = g.1.orderID) := by
  have hc : List.Chain' (fun a b : Row => a.orderID = b.orderID → a.sameHeader b) rows :=
    List.Pairwise.chain' (List.pairwise_of_forall_mem_list (IsJoin.sameHeader orders rows hjoin))
  refine ⟨groups rows, GetOrdersForAccount_eq_groups rows, ?_, orderOfGroup_products_ne_nil _, ?_,
    ungroup_groups rows, groups_same_id rows⟩
  · rw [flattenOrders_groups _ (groups_same_header rows hc), ungroup_groups]
  · rw [List.chain'_map]
    exact groups_chain rows

/-- C9, on the joined rows of two orders. -/
theorem GetOrdersForAccount_regroups_join_witness :
    IsJoin exOrdersTable exRows ∧
      ∃ result, postgresRepository.GetOrdersForAccount (Except.ok (exRows.map Except.ok)) =
          Except.ok result ∧ flattenOrders result = exRows := by
  have hjoin : IsJoin exOrdersTable exRows := by
    constructor
    · simp [exOrdersTable]
    · simp [exRows, exOrdersTable, Row.header]
  obtain ⟨gs, h1, h2, _⟩ := GetOrdersForAccount_regroups_join exOrdersTable exRows hjoin
  exact ⟨hjoin, _, h1, h2⟩

/-! ## Retrieval: ordering -/

theorem heads_sublist_ungroup (gs : List (Row × List Row)) :
    (gs.map Prod.fst).Sublist (ungroup gs) := by
  induction gs with
  | nil => exact List.Sublist.slnil
  | cons g gs ih =>
    simp only [List.map_cons, ungroup, List.cons_append]
    exact List.Sublist.cons₂ _ (ih.trans (List.sublist_append_right _ _))

/-- What the retrieval handler does once the store has returned `orders`. -/
theorem GetOrderForAccount_of_orders (env : Env) (w : World) (req : pb.GetOrderForAccountRequest)
    (orders : List Order)
    (h : postgresRepository.GetOrdersForAccount (env.queryRows req.AccountId) = Except.ok orders) :
    grpcServer.GetOrderForAccount env w req =
      (match env.getProducts (w.calls ++ [Call.getOrdersForAccount req.AccountId])
          (env.rangeKeys (collectIDs orders)) with
        | Except.error e => Except.error e
        | Except.ok cps => Except.ok { Orders := orders.map (fun o =>
            { Id := o.ID, AccountId := o.AccountID, Total := o.Total, CreatedAt := o.CreatedAt,
              Products := enrichWith (productMap cps) o.Products }) },
        { calls := w.calls ++ [Call.getOrdersForAccount req.AccountId] ++
            [Call.getProducts (env.rangeKeys (collectIDs orders))],
          db := w.db }) := by
  simp only [grpcServer.GetOrderForAccount, orderService.GetOrdersForAccount, h]
  cases env.getProducts (w.calls ++ [Call.getOrdersForAccount req.AccountId])
    (env.rangeKeys (collectIDs orders)) <;> rfl

/-- C10. When the rows of the query come sorted by creation time descending (ties allowed),
`GetOrdersForAccount` returns its orders sorted by creation time descending, and the retrieval
handler `GetOrderForAccount`, which answers whenever its batch catalog call does, returns the
same orders (same ids and creation times) in the same sequence. -/
theorem GetOrdersForAccount_newest_first (env : Env) (w : World)
    (req : pb.GetOrderForAccountRequest) (rows : List Row)
    (hq : env.queryRows req.AccountId = Except.ok (rows.map Except.ok))
    (hs : rows.Pairwise (fun a b => b.createdAt ≤ a.createdAt)) :
    ∃ orders, postgresRepository.GetOrdersForAccount (env.queryRows req.AccountId) =
        Except.ok orders ∧
      orders.Pairwise (fun a b => b.CreatedAt ≤ a.CreatedAt) ∧
      (∀ resp w2, grpcServer.GetOrderForAccount env w req = (Except.ok resp, w2) →
        resp.Orders.map (fun o => (o.Id, o.CreatedAt)) = orders.map (fun o => (o.ID, o.CreatedAt)) ∧
          resp.Orders.Pairwise (fun a b => b.CreatedAt ≤ a.CreatedAt)) ∧
      (∀ cps, env.getProducts (w.calls ++ [Call.getOrdersForAccount req.AccountId])
          (env.rangeKeys (collectIDs orders)) = Except.ok cps →
        ∃ resp w2, grpcServer.GetOrderForAccount env w req = (Except.ok resp, w2)) := by
  have hget : postgresRepository.GetOrdersForAccount (env.queryRows req.AccountId) =
      Except.ok ((groups rows).map orderOfGroup) := by
    rw [hq, GetOrdersForAccount_eq_groups]
  have hheads : ((groups rows).map Prod.fst).Pairwise (fun a b => b.createdAt ≤ a.createdAt) := by
    have hsub := heads_sublist_ungroup (groups rows)
    rw [ungroup_groups] at hsub
    exact hs.sublist hsub
  have hsorted : ((groups rows).map orderOfGroup).Pairwise
      (fun a b => b.CreatedAt ≤ a.CreatedAt) := by
    rw [List.pairwise_map] at hheads ⊢
    exact hheads
  have hhandler := GetOrderForAccount_of_orders env w req _ hget
  refine ⟨_, hget, hsorted, ?_, ?_⟩
  · intro resp w2 h
    rw [hhandler] at h
    cases hb : env.getProducts (w.calls ++ [Call.getOrdersForAccount req.AccountId])
        (env.rangeKeys (collectIDs ((groups rows).map orderOfGroup))) with
    | error e => simp [hb] at h
    | ok cps =>
      simp only [hb, Prod.mk.injEq, Except.ok.injEq] at h
      rw [← h.1]
      constructor
      · simp [Function.comp_def]
      · rw [List.pairwise_map]
        exact hsorted
  · intro cps hb
    rw [hhandler, hb]
    exact ⟨_, _, rfl⟩

/-- C10, on the rows of two orders created at 9 and at 7. -/
theorem GetOrdersForAccount_newest_first_witness :
    exEnvRows.queryRows "acct-1" = Except.ok (exRows.map Except.ok) ∧
      exRows.Pairwise (fun a b => b.createdAt ≤ a.createdAt) ∧
      ∃ orders, postgresRepository.GetOrdersForAccount (exEnvRows.queryRows "acct-1") =
          Except.ok orders ∧
        orders.Pairwise (fun a b => b.CreatedAt ≤ a.CreatedAt) ∧
        ∃ resp w2, grpcServer.GetOrderForAccount exEnvRows exWorld { AccountId := "acct-1" } =
          (Except.ok resp, w2) ∧
          resp.Orders.map (fun o => (o.Id, o.CreatedAt)) = orders.map (fun o => (o.ID, o.CreatedAt)) := by
  have hq : exEnvRows.queryRows "acct-1" = Except.ok (exRows.map Except.ok) := rfl
  have hs : exRows.Pairwise (fun a b => b.createdAt ≤ a.createdAt) := by
    simp [exRows]
  obtain ⟨orders, h1, h2, h3, h4⟩ :=
    GetOrdersForAccount_newest_first exEnvRows exWorld { AccountId := "acct-1" } exRows hq hs
  obtain ⟨resp, w2, h5⟩ := h4 [{ exP1 with Price := F64.fin 5 }] rfl
  exact ⟨hq, hs, orders, h1, h2, resp, w2, h5, (h3 resp w2 h5).1⟩

/-! ## Retrieval: the batch lookup -/

/-- With no ids, no query and `take = 0` the catalog handler takes its pagination branch, which
rejects `take ≤ 0`. -/
theorem catalogBatch_nil (repo : catalog.Repository) :
    catalogBatch repo [] = Except.error "invalid pagination parameters" := by
  simp [catalogBatch, catalog.Client.GetProducts, catalog.grpcServer.GetProducts,
    catalog.CatalogService.GetProducts, catalog.toUint64, catalog.uint64ToInt]

/-- C11. For an account with no stored rows, with the catalog service's `GetProducts` handler as
batch lookup, `GetOrderForAccount` does not return an empty list: the batch call is made with no
ids, the catalog handler falls into its pagination branch with `take = 0`, and the handler's
error "invalid pagination parameters" is what `GetOrderForAccount` returns. -/
theorem GetOrderForAccount_no_orders_is_error (env : Env) (w : World)
    (req : pb.GetOrderForAccountRequest) (repo : catalog.Repository)
    (hq : env.queryRows req.AccountId = Except.ok [])
    (hb : env.getProducts = fun _ ids => catalogBatch repo ids)
    (hr : env.rangeKeys [] = []) :
    grpcServer.GetOrderForAccount env w req =
      (Except.error "invalid pagination parameters",
        { calls := w.calls ++ [Call.getOrdersForAccount req.AccountId, Call.getProducts []],
          db := w.db }) := by
  have hstore : postgresRepository.GetOrdersForAccount (env.queryRows req.AccountId) =
      Except.ok [] := by
    rw [hq]; rfl
  rw [GetOrderForAccount_of_orders env w req [] hstore]
  have hids : collectIDs [] = [] := rfl
  simp [hids, hr, hb, catalogBatch_nil]

/-- C11, on the example catalog and an account without rows. -/
theorem GetOrderForAccount_no_orders_is_error_witness :
    exEnvCatalog.queryRows "acct-1" = Except.ok [] ∧
      (exEnvCatalog.getProducts = fun _ ids => catalogBatch exRepo ids) ∧
      exEnvCatalog.rangeKeys [] = [] ∧
      grpcServer.GetOrderForAccount exEnvCatalog exWorld { AccountId := "acct-1" } =
        (Except.error "invalid pagination parameters",
          { calls := [Call.getOrdersForAccount "acct-1", Call.getProducts []], db := exDB }) :=
  ⟨rfl, rfl, rfl,
    GetOrderForAccount_no_orders_is_error exEnvCatalog exWorld { AccountId := "acct-1" } exRepo
      rfl rfl rfl⟩

theorem setKey_nodup (ks : List String) (k : String) (h : ks.Nodup) : (setKey ks k).Nodup := by
  unfold setKey
  by_cases hk : k ∈ ks
  · simpa [hk] using h
  · rw [if_neg hk]
    exact List.nodup_append.mpr ⟨h, List.nodup_singleton k, by
      intro a ha hb
      rw [List.mem_singleton] at hb
      exact hk (hb ▸ ha)⟩

theorem mem_setKey (ks : List String) (k x : String) : x ∈ setKey ks k ↔ x ∈ ks ∨ x = k := by
  unfold setKey
  by_cases hk : k ∈ ks
  · rw [if_pos hk]
    constructor
    · exact Or.inl
    · rintro (h | h)
      · exact h
      · exact h ▸ hk
  · rw [if_neg hk]
    simp

theorem foldl_setKey_nodup (ps : List OrderedProduct) :
    ∀ ks : List String, ks.Nodup →
      (ps.foldl (fun ks p => setKey ks p.ProductID) ks).Nodup := by
  induction ps with
  | nil => intro ks h; exact h
  | cons p ps ih => intro ks h; exact ih _ (setKey_nodup ks p.ProductID h)

theorem mem_foldl_setKey (ps : List OrderedProduct) :
    ∀ (ks : List String) (x : String),
      x ∈ ps.foldl (fun ks p => setKey ks p.ProductID) ks ↔
        x ∈ ks ∨ ∃ p ∈ ps, p.ProductID = x := by
  induction ps with
  | nil => intro ks x; simp
  | cons p ps ih =>
    intro ks x
    rw [List.foldl_cons, ih, mem_setKey]
    constructor
    · rintro ((h | h) | ⟨q, hq, hx⟩)
      · exact Or.inl h
      · exact Or.inr ⟨p, by simp, h.symm⟩
      · exact Or.inr ⟨q, List.mem_cons_of_mem _ hq, hx⟩
    · rintro (h | ⟨q, hq, hx⟩)
      · exact Or.inl (Or.inl h)
      · rcases List.mem_cons.mp hq with h1 | h1
        · exact Or.inl (Or.inr (by rw [← hx, h1]))
        · exact Or.inr ⟨q, h1, hx⟩

theorem foldl_collect_nodup (os : List Order) :
    ∀ ks : List String, ks.Nodup →
      (os.foldl (fun keys o => o.Products.foldl (fun ks p => setKey ks p.ProductID) keys) ks).Nodup := by
  induction os with
  | nil => intro ks h; exact h
  | cons o os ih => intro ks h; exact ih _ (foldl_setKey_nodup o.Products ks h)

theorem mem_foldl_collect (os : List Order) :
    ∀ (ks : List String) (x : String),
      x ∈ os.foldl (fun keys o => o.Products.foldl (fun ks p => setKey ks p.ProductID) keys) ks ↔
        x ∈ ks ∨ ∃ o ∈ os, ∃ p ∈ o.Products, p.ProductID = x := by
  induction os with
  | nil => intro ks x; simp
  | cons o os ih =>
    intro ks x
    rw [List.foldl_cons, ih, mem_foldl_setKey]
    constructor
    · rintro ((h | ⟨p, hp, hx⟩) | ⟨o2, ho2, hx⟩)
      · exact Or.inl h
      · exact Or.inr ⟨o, by simp, p, hp, hx⟩
      · exact Or.inr ⟨o2, List.mem_cons_of_mem _ ho2, hx⟩
    · rintro (h | ⟨o2, ho2, hx⟩)
      · exact Or.inl (Or.inl h)
      · rcases List.mem_cons.mp ho2 with h1 | h1
        · subst h1
          exact Or.inl (Or.inr hx)
        · exact Or.inr ⟨o2, h1, hx⟩

theorem collectIDs_nodup (os : List Order) : (collectIDs os).Nodup :=
  foldl_collect_nodup os [] List.nodup_nil

theorem mem_collectIDs (os : List Order) (x : String) :
    x ∈ collectIDs os ↔ ∃ o ∈ os, ∃ p ∈ o.Products, p.ProductID = x := by
  unfold collectIDs
  rw [mem_foldl_collect]
  simp

/-- C12. Whatever orders the store returns, `GetOrderForAccount` makes, after the store read,
exactly one catalog call, the batch call; the id list it passes has no duplicates and holds
exactly the product ids that occur in a line item of a returned order. -/
theorem GetOrderForAccount_one_batch_call (env : Env) (w : World)
    (req : pb.GetOrderForAccountRequest) (orders : List Order)
    (hstore : postgresRepository.GetOrdersForAccount (env.queryRows req.AccountId) =
      Except.ok orders)
    (hrange : ∀ keys, (env.rangeKeys keys).Perm keys) :
    ∃ ids, (grpcServer.GetOrderForAccount env w req).2.calls =
        w.calls ++ [Call.getOrdersForAccount req.AccountId, Call.getProducts ids] ∧
      ids.Nodup ∧ ∀ id, id ∈ ids ↔ ∃ o ∈ orders, ∃ p ∈ o.Products, p.ProductID = id := by
  refine ⟨env.rangeKeys (collectIDs orders), ?_, ?_, ?_⟩
  · rw [GetOrderForAccount_of_orders env w req orders hstore]
    simp
  · exact (hrange _).nodup_iff.mpr (collectIDs_nodup orders)
  · intro id
    rw [(hrange _).mem_iff, mem_collectIDs]

/-- C12, on two stored orders that reference `p1`, `p2` and `p1` again. -/
theorem GetOrderForAccount_one_batch_call_witness :
    postgresRepository.GetOrdersForAccount (exEnvRows.queryRows "acct-1") =
        Except.ok ((groups exRows).map orderOfGroup) ∧
      (∀ keys, (exEnvRows.rangeKeys keys).Perm keys) ∧
      ∃ ids, (grpcServer.GetOrderForAccount exEnvRows exWorld { AccountId := "acct-1" }).2.calls =
          exWorld.calls ++ [Call.getOrdersForAccount "acct-1", Call.getProducts ids] ∧
        ids.Nodup ∧
        ∀ id, id ∈ ids ↔ ∃ o ∈ (groups exRows).map orderOfGroup, ∃ p ∈ o.Products, p.ProductID = id := by
  have h1 : postgresRepository.GetOrdersForAccount (exEnvRows.queryRows "acct-1") =
      Except.ok ((groups exRows).map orderOfGroup) := GetOrdersForAccount_eq_groups exRows
  have h2 : ∀ keys, (exEnvRows.rangeKeys keys).Perm keys := fun keys => List.Perm.refl keys
  exact ⟨h1, h2,
    GetOrderForAccount_one_batch_call exEnvRows exWorld { AccountId := "acct-1" } _ h1 h2⟩

/-! ## Retrieval: the merge -/

theorem firstWithID_append (id : String) (l1 l2 : List catalog.Product) :
    firstWithID id (l1 ++ l2) =
      match firstWithID id l1 with
      | some c => some c
      | Option.none => firstWithID id l2 := by
  induction l1 with
  | nil => simp [firstWithID]
  | cons c cs ih =>
    by_cases h : c.ID = id
    · simp [firstWithID, h]
    · simp [firstWithID, h, ih]

theorem firstWithID_eq_none_iff (id : String) (l : List catalog.Product) :
    firstWithID id l = Option.none ↔ ∀ c ∈ l, c.ID ≠ id := by
  induction l with
  | nil => simp [firstWithID]
  | cons c cs ih =>
    by_cases h : c.ID = id
    · simp [firstWithID, h]
    · simp [firstWithID, h, ih]

theorem firstWithID_some (id : String) (l : List catalog.Product) (c : catalog.Product)
    (h : firstWithID id l = some c) : c ∈ l ∧ c.ID = id := by
  induction l with
  | nil => simp [firstWithID] at h
  | cons d ds ih =>
    by_cases hd : d.ID = id
    · simp only [firstWithID, hd, if_true, Option.some.injEq] at h
      subst h
      exact ⟨by simp, hd⟩
    · simp only [firstWithID, hd, if_false] at h
      exact ⟨List.mem_cons_of_mem _ (ih h).1, (ih h).2⟩

/-- When ids are unique in the batch result, a product of the batch is the first with its id. -/
theorem firstWithID_of_mem (l : List catalog.Product) (hu : (l.map (fun c => c.ID)).Nodup)
    (c : catalog.Product) (hc : c ∈ l) : firstWithID c.ID l = some c := by
  induction l with
  | nil => simp at hc
  | cons d ds ih =>
    rw [List.map_cons, List.nodup_cons] at hu
    rcases List.mem_cons.mp hc with h | h
    · subst h
      simp [firstWithID]
    · have hne : d.ID ≠ c.ID := by
        intro heq
        exact hu.1 (heq ▸ List.mem_map_of_mem (fun c => c.ID) h)
      simp [firstWithID, hne, ih hu.2 h]

theorem productMap_append (l : List catalog.Product) (c : catalog.Product) (id : String) :
    productMap (l ++ [c]) id = if id = c.ID then some c else productMap l id := by
  simp [productMap, List.foldl_append]

/-- When ids are unique in the batch result, `productMap` finds the product with the wanted id. -/
theorem productMap_eq_firstWithID (l : List catalog.Product) :
    (l.map (fun c => c.ID)).Nodup → ∀ id, productMap l id = firstWithID id l := by
  induction l using List.reverseRecOn with
  | nil => intro _ id; rfl
  | append_singleton l c ih =>
    intro hu id
    rw [List.map_append, List.nodup_append] at hu
    obtain ⟨hl, _, hdis⟩ := hu
    rw [productMap_append, firstWithID_append, ih hl id]
    by_cases h : id = c.ID
    · have hnone : firstWithID id l = Option.none := by
        rw [firstWithID_eq_none_iff]
        intro d hd hdid
        exact hdis (List.mem_map_of_mem (fun c => c.ID) hd) (by simp [hdid, h])
      subst h
      simp [hnone, firstWithID]
    · have hne : c.ID ≠ id := fun heq => h heq.symm
      cases hf : firstWithID id l with
      | none => simp [h, hne, firstWithID]
      | some d => simp [h]

theorem enrichWith_eq_filterMap (m : String → Option catalog.Product) (ps : List OrderedProduct) :
    enrichWith m ps = ps.filterMap (fun p => (m p.ProductID).map (fun c => enriched c p)) := by
  induction ps with
  | nil => rfl
  | cons p ps ih =>
    cases h : m p.ProductID with
    | none => simp [enrichWith, h, ih, List.filterMap_cons]
    | some c => simp [enrichWith, h, ih, List.filterMap_cons, enriched]

/-- When the store returns `orders` and the batch call returns `cps` with unique product ids,
`GetOrderForAccount` returns the orders in the stored sequence, the line items of each being the
stored line items whose product id occurs in `cps`, in their stored relative sequence, each with
the data of the product of `cps` with that id and the quantity `uint32(q)` of the stored
quantity `q`. -/
theorem GetOrderForAccount_merge_uint32 (env : Env) (w : World)
    (req : pb.GetOrderForAccountRequest) (orders : List Order) (cps : List catalog.Product)
    (hstore : postgresRepository.GetOrdersForAccount (env.queryRows req.AccountId) =
      Except.ok orders)
    (hbatch : env.getProducts (w.calls ++ [Call.getOrdersForAccount req.AccountId])
      (env.rangeKeys (collectIDs orders)) = Except.ok cps)
    (huniq : (cps.map (fun c => c.ID)).Nodup) :
    (grpcServer.GetOrderForAccount env w req).1 =
        Except.ok { Orders := orders.map (fun o =>
          { Id := o.ID, AccountId := o.AccountID, Total := o.Total, CreatedAt := o.CreatedAt,
            Products := o.Products.filterMap (fun p =>
              (firstWithID p.ProductID cps).map (fun c => enriched c p)) }) } := by
  rw [GetOrderForAccount_of_orders env w req orders hstore, hbatch]
  have hm : productMap cps = fun id => firstWithID id cps :=
    funext (productMap_eq_firstWithID cps huniq)
  simp only [enrichWith_eq_filterMap, hm]

/-- For a quantity the write path stores, the conversion `uint32(q)` keeps the quantity. -/
theorem enriched_eq_enrichedStored (c : catalog.Product) (p : OrderedProduct)
    (h0 : 0 ≤ p.Quantity) (h1 : p.Quantity < 2 ^ 32) : enriched c p = enrichedStored c p := by
  simp only [enriched, enrichedStored, toUint32, Int.emod_eq_of_lt h0 h1]

/-- The line items a creation hands to the store have quantities in `0 .. 2 ^ 32 - 1`. -/
theorem storedOrder_quantities (env : Env) (req : pb.PostOrderRequest) (ps : List catalog.Product)
    (hwire : ∀ item ∈ req.Products, item.Quantity < 2 ^ 32) :
    ∀ p ∈ (storedOrder env req ps).Products, 0 ≤ p.Quantity ∧ p.Quantity < 2 ^ 32 := by
  intro p hp
  obtain ⟨item, hi, hpq⟩ := lineItems_mem ps req.Products p hp
  rw [hpq]
  exact ⟨Int.ofNat_nonneg _, by exact_mod_cast hwire item hi⟩

/-- C13. When the store returns orders whose quantities are ones the write path stores and the
batch call returns `cps` with unique product ids, `GetOrderForAccount` returns the orders in the
stored sequence, and the line items of each are exactly the stored line items whose product id
occurs in `cps`, in their stored relative sequence, each with the stored quantity and the id,
name, description and price of the product of `cps` with that id; a line item whose product id
is not in `cps` is left out. -/
theorem GetOrderForAccount_merges_stored_items (env : Env) (w : World)
    (req : pb.GetOrderForAccountRequest) (orders : List Order) (cps : List catalog.Product)
    (hstore : postgresRepository.GetOrdersForAccount (env.queryRows req.AccountId) =
      Except.ok orders)
    (hwritten : WrittenQuantities orders)
    (hbatch : env.getProducts (w.calls ++ [Call.getOrdersForAccount req.AccountId])
      (env.rangeKeys (collectIDs orders)) = Except.ok cps)
    (huniq : (cps.map (fun c => c.ID)).Nodup) :
    (grpcServer.GetOrderForAccount env w req).1 =
        Except.ok { Orders := orders.map (fun o =>
          { Id := o.ID, AccountId := o.AccountID, Total := o.Total, CreatedAt := o.CreatedAt,
            Products := o.Products.filterMap (fun p =>
              (firstWithID p.ProductID cps).map (fun c => enrichedStored c p)) }) } ∧
      (∀ c ∈ cps, firstWithID c.ID cps = some c) ∧
      (∀ id c, firstWithID id cps = some c → c ∈ cps ∧ c.ID = id) ∧
      (∀ id, firstWithID id cps = Option.none ↔ ∀ c ∈ cps, c.ID ≠ id) ∧
      (∀ o ∈ orders, ∀ p ∈ o.Products, ∀ c, ((enrichedStored c p).Quantity : Int) = p.Quantity) := by
  refine ⟨?_, firstWithID_of_mem cps huniq, fun id c h => firstWithID_some id cps c h,
    fun id => firstWithID_eq_none_iff id cps, ?_⟩
  · rw [GetOrderForAccount_merge_uint32 env w req orders cps hstore hbatch huniq]
    congr 2
    apply List.map_congr_left
    intro o ho
    congr 1
    apply List.filterMap_congr
    intro p hp
    cases firstWithID p.ProductID cps with
    | none => rfl
    | some c =>
      simp only [Option.map_some']
      rw [enriched_eq_enrichedStored c p (hwritten o ho p hp).1 (hwritten o ho p hp).2]
  · intro o ho p hp c
    exact Int.toNat_of_nonneg (hwritten o ho p hp).1

/-- C13, on two stored orders and a batch result that holds `p1` only. -/
theorem GetOrderForAccount_merges_stored_items_witness :
    postgresRepository.GetOrdersForAccount (exEnvRows.queryRows "acct-1") =
        Except.ok ((groups exRows).map orderOfGroup) ∧
      WrittenQuantities ((groups exRows).map orderOfGroup) ∧
      exEnvRows.getProducts (exWorld.calls ++ [Call.getOrdersForAccount "acct-1"])
          (exEnvRows.rangeKeys (collectIDs ((groups exRows).map orderOfGroup))) =
        Except.ok [{ exP1 with Price := F64.fin 5 }] ∧
      (([{ exP1 with Price := F64.fin 5 }] : List catalog.Product).map (fun c => c.ID)).Nodup ∧
      (grpcServer.GetOrderForAccount exEnvRows exWorld { AccountId := "acct-1" }).1 =
        Except.ok { Orders := ((groups exRows).map orderOfGroup).map (fun o =>
          { Id := o.ID, AccountId := o.AccountID, Total := o.Total, CreatedAt := o.CreatedAt,
            Products := o.Products.filterMap (fun p =>
              (firstWithID p.ProductID [{ exP1 with Price := F64.fin 5 }]).map
                (fun c => enrichedStored c p)) }) } := by
  have h1 : postgresRepository.GetOrdersForAccount (exEnvRows.queryRows "acct-1") =
      Except.ok ((groups exRows).map orderOfGroup) := GetOrdersForAccount_eq_groups exRows
  have hw : WrittenQuantities ((groups exRows).map orderOfGroup) := by
    intro o ho p hp
    simp [exRows, groups, orderOfGroup, Row.item] at ho
    rcases ho with rfl | rfl <;> simp at hp <;> rcases hp with rfl | rfl <;> simp
  have h2 : exEnvRows.getProducts (exWorld.calls ++ [Call.getOrdersForAccount "acct-1"])
      (exEnvRows.rangeKeys (collectIDs ((groups exRows).map orderOfGroup))) =
      Except.ok [{ exP1 with Price := F64.fin 5 }] := rfl
  have h3 : (([{ exP1 with Price := F64.fin 5 }] : List catalog.Product).map
      (fun c => c.ID)).Nodup := by
    simp
  exact ⟨h1, hw, h2, h3,
    (GetOrderForAccount_merges_stored_items exEnvRows exWorld { AccountId := "acct-1" } _ _
      h1 hw h2 h3).1⟩

theorem productMap_eq_none_iff (l : List catalog.Product) :
    ∀ id, productMap l id = Option.none ↔ ∀ c ∈ l, c.ID ≠ id := by
  induction l using List.reverseRecOn with
  | nil => intro id; simp [productMap]
  | append_singleton l c ih =>
    intro id
    rw [productMap_append]
    by_cases h : id = c.ID
    · subst h
      simp only [if_true]
      constructor
      · intro h2; cases h2
      · intro h2
        exact absurd rfl (h2 c (by simp))
    · have hne : c.ID ≠ id := fun heq => h heq.symm
      rw [if_neg h, ih]
      constructor
      · intro h2 d hd
        rcases List.mem_append.mp hd with h3 | h3
        · exact h2 d h3
        · rw [List.mem_singleton] at h3
          rw [h3]; exact hne
      · intro h2 d hd
        exact h2 d (List.mem_append_left _ hd)

theorem enrichWith_eq_nil (m : String → Option catalog.Product) (ps : List OrderedProduct)
    (h : ∀ p ∈ ps, m p.ProductID = Option.none) : enrichWith m ps = [] := by
  induction ps with
  | nil => rfl
  | cons p ps ih =>
    have hp : m p.ProductID = Option.none := h p (by simp)
    simp [enrichWith, hp, ih (fun q hq => h q (List.mem_cons_of_mem _ hq))]

/-- C14. For the same stored orders and any two successful batch results, both answers of
`GetOrderForAccount` hold one order per stored order, in the stored sequence, each with the
stored id, account id and total, whatever products and prices the batch results hold; an order
none of whose products is in the batch result is returned with an empty line-item list. -/
theorem GetOrderForAccount_headers_kept (env1 env2 : Env) (w1 w2 : World)
    (req : pb.GetOrderForAccountRequest) (orders : List Order) (cps1 cps2 : List catalog.Product)
    (hs1 : postgresRepository.GetOrdersForAccount (env1.queryRows req.AccountId) = Except.ok orders)
    (hs2 : postgresRepository.GetOrdersForAccount (env2.queryRows req.AccountId) = Except.ok orders)
    (hb1 : env1.getProducts (w1.calls ++ [Call.getOrdersForAccount req.AccountId])
      (env1.rangeKeys (collectIDs orders)) = Except.ok cps1)
    (hb2 : env2.getProducts (w2.calls ++ [Call.getOrdersForAccount req.AccountId])
      (env2.rangeKeys (collectIDs orders)) = Except.ok cps2) :
    ∃ r1 r2, (grpcServer.GetOrderForAccount env1 w1 req).1 = Except.ok r1 ∧
      (grpcServer.GetOrderForAccount env2 w2 req).1 = Except.ok r2 ∧
      r1.Orders.map pb.Order.header = orders.map Order.header ∧
      r2.Orders.map pb.Order.header = orders.map Order.header ∧
      r1.Orders.length = orders.length ∧ r2.Orders.length = orders.length ∧
      r1.Orders.map (fun o => o.Products) =
        orders.map (fun o => enrichWith (productMap cps1) o.Products) ∧
      ∀ o ∈ orders, (∀ p ∈ o.Products, ∀ c ∈ cps1, c.ID ≠ p.ProductID) →
        enrichWith (productMap cps1) o.Products = [] := by
  refine ⟨{ Orders := orders.map (fun o =>
      { Id := o.ID, AccountId := o.AccountID, Total := o.Total, CreatedAt := o.CreatedAt,
        Products := enrichWith (productMap cps1) o.Products }) },
    { Orders := orders.map (fun o =>
      { Id := o.ID, AccountId := o.AccountID, Total := o.Total, CreatedAt := o.CreatedAt,
        Products := enrichWith (productMap cps2) o.Products }) }, ?_, ?_, ?_, ?_, ?_, ?_, ?_, ?_⟩
  · rw [GetOrderForAccount_of_orders env1 w1 req orders hs1, hb1]
  · rw [GetOrderForAccount_of_orders env2 w2 req orders hs2, hb2]
  · simp [Function.comp_def, pb.Order.header, Order.header]
  · simp [Function.comp_def, pb.Order.header, Order.header]
  · simp
  · simp
  · simp [Function.comp_def]
  · intro o _ hmiss
    apply enrichWith_eq_nil
    intro p hp
    rw [productMap_eq_none_iff]
    exact hmiss p hp

/-- C14, on two stored orders: once with a batch result holding `p1` at the price 5, once with
an empty batch result. -/
theorem GetOrderForAccount_headers_kept_witness :
    ∃ r1 r2, (grpcServer.GetOrderForAccount exEnvRows exWorld { AccountId := "acct-1" }).1 =
        Except.ok r1 ∧
      (grpcServer.GetOrderForAccount exEnvNoProducts exWorld { AccountId := "acct-1" }).1 =
        Except.ok r2 ∧
      r1.Orders.map pb.Order.header = ((groups exRows).map orderOfGroup).map Order.header ∧
      r2.Orders.map pb.Order.header = ((groups exRows).map orderOfGroup).map Order.header := by
  obtain ⟨r1, r2, h1, h2, h3, h4, _⟩ :=
    GetOrderForAccount_headers_kept exEnvRows exEnvNoProducts exWorld exWorld
      { AccountId := "acct-1" } ((groups exRows).map orderOfGroup) [{ exP1 with Price := F64.fin 5 }] []
      (GetOrdersForAccount_eq_groups exRows) (GetOrdersForAccount_eq_groups exRows) rfl rfl
  exact ⟨r1, r2, h1, h2, h3, h4⟩

/-- C15. When the store returns orders and the batch catalog call fails, `GetOrderForAccount`
returns the error of the batch call and no orders; when the store read fails, it returns the
error of the store read, and the store read is the only call it has made. -/
theorem GetOrderForAccount_failures (env : Env) (w : World) (req : pb.GetOrderForAccountRequest) :
    (∀ orders e,
        postgresRepository.GetOrdersForAccount (env.queryRows req.AccountId) = Except.ok orders →
        env.getProducts (w.calls ++ [Call.getOrdersForAccount req.AccountId])
          (env.rangeKeys (collectIDs orders)) = Except.error e →
        grpcServer.GetOrderForAccount env w req =
          (Except.error e,
            { calls := w.calls ++ [Call.getOrdersForAccount req.AccountId,
                Call.getProducts (env.rangeKeys (collectIDs orders))],
              db := w.db })) ∧
      (∀ e,
        postgresRepository.GetOrdersForAccount (env.queryRows req.AccountId) = Except.error e →
        grpcServer.GetOrderForAccount env w req =
          (Except.error e,
            { calls := w.calls ++ [Call.getOrdersForAccount req.AccountId], db := w.db })) := by
  constructor
  · intro orders e hs hb
    rw [GetOrderForAccount_of_orders env w req orders hs, hb]
    simp
  · intro e hs
    simp [grpcServer.GetOrderForAccount, orderService.GetOrdersForAccount, hs]

/-- C15, on a failing batch call and on a failing order query. -/
theorem GetOrderForAccount_failures_witness :
    (grpcServer.GetOrderForAccount exEnvBatchDown exWorld { AccountId := "acct-1" }).1 =
        Except.error "catalog unavailable" ∧
      grpcServer.GetOrderForAccount exEnvStoreDown exWorld { AccountId := "acct-1" } =
        (Except.error "database unavailable",
          { calls := [Call.getOrdersForAccount "acct-1"], db := exDB }) := by
  constructor
  · rw [(GetOrderForAccount_failures exEnvBatchDown exWorld { AccountId := "acct-1" }).1
      ((groups exRows).map orderOfGroup) "catalog unavailable"
      (GetOrdersForAccount_eq_groups exRows) rfl]
  · exact (GetOrderForAccount_failures exEnvStoreDown exWorld { AccountId := "acct-1" }).2
      "database unavailable" rfl

/-! ## Creation: the enriched response -/

/-- C16, counterexample. On the example request the account lookup, the product lookup and the
store write succeed and the batch call of step 5 fails: `PostOrder` returns the error of the
batch call, after the order has been handed to the store. -/
theorem PostOrder_fails_on_batch_error :
    grpcServer.PostOrder exEnvCreateBatchDown exWorld exReq =
      (Except.error "catalog unavailable",
        { calls :=
            [Call.getAccount "acct-1", Call.getProduct "p1",
              Call.putOrder
                { ID := "order-1", AccountID := "acct-1", CreatedAt := 1000, Total := F64.fin 0,
                  Products := [{ ProductID := "p1", Quantity := 2 }] },
              Call.getProducts ["p1"]],
          db := exDB.leave (writtenTx
            { ID := "order-1", AccountID := "acct-1", CreatedAt := 1000, Total := F64.fin 0,
              Products := [{ ProductID := "p1", Quantity := 2 }] }) }) := by
  have hacc : exEnvCreateBatchDown.getAccount exWorld.calls exReq.AccountId =
      Except.ok { ID := "acct-1", Name := "ann" } := by
    simp [exEnvCreateBatchDown, exEnv, exReq]
  have hprod : lookupAnswers exEnvCreateBatchDown
      (exWorld.calls ++ [Call.getAccount exReq.AccountId]) exReq.Products =
      [exP1].map Except.ok := by
    simp [lookupAnswers, exEnvCreateBatchDown, exEnv, exReq]
  rw [PostOrder_of_success exEnvCreateBatchDown exWorld exReq _ [exP1] hacc hprod
    (Faults.clean_none _)]
  simp [exEnvCreateBatchDown, exEnv, exWorld, exReq, exP1, callsBeforeBatch, storedOrder,
    batchIDs, lineItems]

/-- C16, amended. When the account lookup, the product lookups and the store write succeed and
the batch call of step 5 returns an error, `PostOrder` returns that error and no order; the
order has then already been handed to the store. -/
theorem PostOrder_batch_error_is_returned (env : Env) (w : World) (req : pb.PostOrderRequest)
    (a : account.Account) (ps : List catalog.Product) (e : Err)
    (hacc : env.getAccount w.calls req.AccountId = Except.ok a)
    (hprod : lookupAnswers env (w.calls ++ [Call.getAccount req.AccountId]) req.Products =
      ps.map Except.ok)
    (hput : env.faults.clean req.Products.length)
    (hbatch : env.getProducts (callsBeforeBatch w req (storedOrder env req ps)) (batchIDs ps req) =
      Except.error e) :
    grpcServer.PostOrder env w req =
      (Except.error e,
        { calls := callsBeforeBatch w req (storedOrder env req ps) ++
            [Call.getProducts (batchIDs ps req)],
          db := w.db.leave (writtenTx (storedOrder env req ps)) }) ∧
      Call.putOrder (storedOrder env req ps) ∈ callsBeforeBatch w req (storedOrder env req ps) := by
  constructor
  · rw [PostOrder_of_success env w req a ps hacc hprod hput, hbatch]
  · simp [callsBeforeBatch]

/-- C16, amended, on the example request with a failing batch call. -/
theorem PostOrder_batch_error_is_returned_witness :
    exEnvCreateBatchDown.getAccount exWorld.calls exReq.AccountId =
        Except.ok { ID := "acct-1", Name := "ann" } ∧
      exEnvCreateBatchDown.faults.clean exReq.Products.length ∧
      (grpcServer.PostOrder exEnvCreateBatchDown exWorld exReq).1 =
        Except.error "catalog unavailable" := by
  have hacc : exEnvCreateBatchDown.getAccount exWorld.calls exReq.AccountId =
      Except.ok { ID := "acct-1", Name := "ann" } := by
    simp [exEnvCreateBatchDown, exEnv, exReq]
  have hprod : lookupAnswers exEnvCreateBatchDown
      (exWorld.calls ++ [Call.getAccount exReq.AccountId]) exReq.Products =
      [exP1].map Except.ok := by
    simp [lookupAnswers, exEnvCreateBatchDown, exEnv, exReq]
  have hput : exEnvCreateBatchDown.faults.clean exReq.Products.length := Faults.clean_none _
  refine ⟨hacc, hput, ?_⟩
  rw [(PostOrder_batch_error_is_returned exEnvCreateBatchDown exWorld exReq _ [exP1]
    "catalog unavailable" hacc hprod hput rfl).1]

theorem toUint32_natCast (n : Nat) (h : n < 2 ^ 32) : toUint32 (n : Int) = n := by
  unfold toUint32
  have h1 : ((n : Int)) % 2 ^ 32 = (n : Int) :=
    Int.emod_eq_of_lt (Int.ofNat_nonneg n) (by exact_mod_cast h)
  rw [h1]
  simp

theorem enrich_lineItems (cps ps : List catalog.Product) :
    ∀ items : List pb.PostOrderRequest_OrderProduct,
      (∀ item ∈ items, item.Quantity < 2 ^ 32) →
      enrich cps (lineItems ps items) = enrichedItems cps ps items := by
  induction ps with
  | nil => intro items _; simp [lineItems, enrich, enrichedItems]
  | cons c cs ih =>
    intro items hq
    cases items with
    | nil => simp [lineItems, enrich, enrichedItems]
    | cons item rest =>
      have hrest : ∀ i ∈ rest, i.Quantity < 2 ^ 32 := fun i hi => hq i (List.mem_cons_of_mem _ hi)
      have hitem : toUint32 (item.Quantity : Int) = item.Quantity :=
        toUint32_natCast _ (hq item (by simp))
      have ih2 := ih rest hrest
      simp only [lineItems, enrichedItems] at ih2
      simp only [lineItems, enrichedItems, List.zipWith_cons_cons, List.zip_cons_cons, enrich,
        List.filterMap_cons]
      cases hf : firstWithID c.ID cps with
      | none => simp [ih2]
      | some d => simp [ih2, hitem]

/-- C17. When the account lookup, the product lookups, the store write and the batch call of
step 5 succeed, `PostOrder` returns an order with the generated id, the request's account id
and the priced total, whose line items are, in request sequence, one per request item whose
persisted product id occurs in the batch result (an id requested twice is kept twice), each with
the requested quantity and the id, name, description and price of the first batch product with
that id; the other request items are left out. -/
theorem PostOrder_enriched_response (env : Env) (w : World) (req : pb.PostOrderRequest)
    (a : account.Account) (ps cps : List catalog.Product)
    (hacc : env.getAccount w.calls req.AccountId = Except.ok a)
    (hprod : lookupAnswers env (w.calls ++ [Call.getAccount req.AccountId]) req.Products =
      ps.map Except.ok)
    (hput : env.faults.clean req.Products.length)
    (hwire : ∀ item ∈ req.Products, item.Quantity < 2 ^ 32)
    (hbatch : env.getProducts (callsBeforeBatch w req (storedOrder env req ps)) (batchIDs ps req) =
      Except.ok cps) :
    (grpcServer.PostOrder env w req).1 =
        Except.ok { Order :=
          { Id := env.ksuid, AccountId := req.AccountId, Total := pricedTotal ps req.Products,
            CreatedAt := env.now, Products := enrichedItems cps ps req.Products } } ∧
      (storedOrder env req ps).Products.map (fun p => p.ProductID) = ps.map (fun c => c.ID) := by
  constructor
  · rw [PostOrder_of_success env w req a ps hacc hprod hput, hbatch]
    simp only [enrich_lineItems cps ps req.Products hwire]
  · have hlen : ps.length = req.Products.length := by
      have := congrArg List.length hprod
      simpa [lookupAnswers_length] using this.symm
    simp only [storedOrder, lineItems]
    clear hprod hbatch hput hwire
    generalize req.Products = items at hlen
    induction ps generalizing items with
    | nil => simp
    | cons c cs ih =>
      cases items with
      | nil => simp at hlen
      | cons item rest =>
        simp only [List.length_cons, Nat.add_right_cancel_iff] at hlen
        simp [ih rest hlen]

/-- C17, on a request for `p1` twice and `p9` once, with a batch result that holds `p1` only:
`p1` appears twice with the quantities 2 and 3, `p9` is left out. -/
theorem PostOrder_enriched_response_witness :
    exEnvTwice.getAccount exWorld.calls exReqTwice.AccountId =
        Except.ok { ID := "acct-1", Name := "ann" } ∧
      exEnvTwice.faults.clean exReqTwice.Products.length ∧
      (∀ item ∈ exReqTwice.Products, item.Quantity < 2 ^ 32) ∧
      (grpcServer.PostOrder exEnvTwice exWorld exReqTwice).1 =
        Except.ok { Order :=
          { Id := "order-1", AccountId := "acct-1",
            Total := pricedTotal [exP1, exP9, exP1] exReqTwice.Products, CreatedAt := 1000,
            Products :=
              [{ Id := "p1", Name := "pen", Description := "a pen", Price := F64.fin 5, Quantity := 2 },
               { Id := "p1", Name := "pen", Description := "a pen", Price := F64.fin 5, Quantity := 3 }] } } := by
  have hacc : exEnvTwice.getAccount exWorld.calls exReqTwice.AccountId =
      Except.ok { ID := "acct-1", Name := "ann" } := by
    simp [exEnvTwice, exEnv, exReqTwice]
  have hprod : lookupAnswers exEnvTwice (exWorld.calls ++ [Call.getAccount exReqTwice.AccountId])
      exReqTwice.Products = [exP1, exP9, exP1].map Except.ok := by
    simp [lookupAnswers, exEnvTwice, exReqTwice]
  have hput : exEnvTwice.faults.clean exReqTwice.Products.length := Faults.clean_none _
  have hwire : ∀ item ∈ exReqTwice.Products, item.Quantity < 2 ^ 32 := by
    simp [exReqTwice]
  refine ⟨hacc, hput, hwire, ?_⟩
  rw [(PostOrder_enriched_response exEnvTwice exWorld exReqTwice _ [exP1, exP9, exP1]
    [{ exP1 with Price := F64.fin 5 }] hacc hprod hput hwire rfl).1]
  simp [enrichedItems, firstWithID, exP1, exP9, exReqTwice, exEnvTwice, exEnv]

/-! ## Retrieval: rows of tied orders -/

/-- C18. Three rows sorted by creation time descending, of two orders created at the same
instant, with the two rows of `o1` separated by the row of `o2`: `GetOrdersForAccount` returns
three orders, `o1` twice, each time with only one of its two rows. -/
theorem GetOrdersForAccount_splits_tied_order :
    exRowsTied.Pairwise (fun a b => b.createdAt ≤ a.createdAt) ∧
      postgresRepository.GetOrdersForAccount (Except.ok (exRowsTied.map Except.ok)) =
        Except.ok
          [{ ID := "o1", AccountID := "acct-1", CreatedAt := 7, Total := F64.fin 10,
             Products := [{ ProductID := "p1", Quantity := 1 }] },
           { ID := "o2", AccountID := "acct-1", CreatedAt := 7, Total := F64.fin 5,
             Products := [{ ProductID := "p1", Quantity := 2 }] },
           { ID := "o1", AccountID := "acct-1", CreatedAt := 7, Total := F64.fin 10,
             Products := [{ ProductID := "p2", Quantity := 3 }] }] := by
  constructor
  · simp [exRowsTied]
  · rw [GetOrdersForAccount_eq_groups]
    simp [exRowsTied, groups, orderOfGroup, Row.item]

/-! ## Creation: the quantity on the wire -/

theorem toUint32_cast (q : Int) : ((toUint32 q : Nat) : Int) = q % 2 ^ 32 := by
  unfold toUint32
  exact Int.toNat_of_nonneg (Int.emod_nonneg q (by norm_num))

theorem emod_eq_self_iff (q : Int) (hq : 0 < q) : q % 2 ^ 32 = q ↔ q < 2 ^ 32 := by
  constructor
  · intro h
    rw [← h]
    exact Int.emod_lt_of_pos q (by norm_num)
  · intro h
    exact Int.emod_eq_of_lt (le_of_lt hq) h

theorem lineItems_quantities (ps : List catalog.Product) :
    ∀ items : List pb.PostOrderRequest_OrderProduct, ps.length = items.length →
      (lineItems ps items).map (fun p => p.Quantity) = items.map (fun i => (i.Quantity : Int)) := by
  induction ps with
  | nil =>
    intro items h
    cases items with
    | nil => rfl
    | cons i r => simp at h
  | cons c cs ih =>
    intro items h
    cases items with
    | nil => simp at h
    | cons i r =>
      simp only [List.length_cons, Nat.add_right_cancel_iff] at h
      have := ih r h
      simp only [lineItems] at this
      simp [lineItems, this]

/-- C19. When the gateway's validation accepts an input and forwards `products` to the order
client, every quantity `q` of the input is positive; the order client puts `uint32(q)` on the
wire and, when the lookups and the store write succeed, the order the order server hands to the
store carries `q mod 2 ^ 32` for it, which is `q` exactly when `q < 2 ^ 32`. -/
theorem CreateOrder_quantity_wraps (env : Env) (w : World) (input : graphql.OrderInput)
    (products : List OrderedProduct) (a : account.Account) (ps : List catalog.Product)
    (hvalid : graphql.convertInput input.Products [] = some products)
    (hacc : env.getAccount w.calls input.AccountID = Except.ok a)
    (hprod : lookupAnswers env (w.calls ++ [Call.getAccount input.AccountID])
      (Client.protoProducts products) = ps.map Except.ok)
    (hput : env.faults.clean input.Products.length) :
    (Client.protoProducts products).map (fun i => i.Quantity) =
        input.Products.map (fun p => toUint32 p.Quantity) ∧
      (∃ o, Call.putOrder o ∈ (Client.PostOrder env w input.AccountID products).2.calls ∧
        o.Products.map (fun p => p.Quantity) = input.Products.map (fun p => p.Quantity % 2 ^ 32)) ∧
      ∀ p ∈ input.Products,
        0 < p.Quantity ∧ (p.Quantity % 2 ^ 32 = p.Quantity ↔ p.Quantity < 2 ^ 32) := by
  rw [graphql.convertInput_eq] at hvalid
  by_cases hbad : ∃ p ∈ input.Products, p.ID = "" ∨ p.Quantity ≤ 0
  · rw [if_pos hbad] at hvalid
    cases hvalid
  · rw [if_neg hbad] at hvalid
    simp only [List.nil_append, Option.some.injEq] at hvalid
    subst hvalid
    have hpos : ∀ p ∈ input.Products, 0 < p.Quantity := by
      intro p hp
      by_contra hle
      exact hbad ⟨p, hp, Or.inr (not_lt.mp hle)⟩
    have hwire : (Client.protoProducts (input.Products.map (fun p =>
        ({ ProductID := p.ID, Quantity := p.Quantity } : OrderedProduct)))).map
        (fun i => i.Quantity) = input.Products.map (fun p => toUint32 p.Quantity) := by
      simp [Client.protoProducts, Function.comp_def]
    have hlenw : (Client.protoProducts (input.Products.map (fun p =>
        ({ ProductID := p.ID, Quantity := p.Quantity } : OrderedProduct)))).length =
        input.Products.length := by
      simp [Client.protoProducts]
    refine ⟨hwire, ?_, fun p hp => ⟨hpos p hp, emod_eq_self_iff _ (hpos p hp)⟩⟩
    obtain ⟨req, hreq⟩ : ∃ req : pb.PostOrderRequest, req =
        ⟨input.AccountID, Client.protoProducts (input.Products.map (fun p =>
          ({ ProductID := p.ID, Quantity := p.Quantity } : OrderedProduct)))⟩ := ⟨_, rfl⟩
    have hA : req.AccountId = input.AccountID := by rw [hreq]
    have hP : req.Products = Client.protoProducts (input.Products.map (fun p =>
        ({ ProductID := p.ID, Quantity := p.Quantity } : OrderedProduct))) := by rw [hreq]
    have hlen : ps.length = req.Products.length := by
      have := congrArg List.length hprod
      rw [hP]
      simpa [lookupAnswers_length] using this.symm
    have hmain := PostOrder_of_success env w req a ps (by rw [hA]; exact hacc)
      (by rw [hA, hP]; exact hprod) (by rw [hP, hlenw]; exact hput)
    refine ⟨storedOrder env req ps, ?_, ?_⟩
    · simp only [Client.PostOrder, ← hreq, hmain]
      cases env.getProducts (callsBeforeBatch w req (storedOrder env req ps)) (batchIDs ps req) <;>
        simp [callsBeforeBatch]
    · simp only [storedOrder]
      rw [lineItems_quantities ps req.Products hlen, hP]
      simp [Client.protoProducts, Function.comp_def, toUint32_cast]

/-- C19, on the quantity `2 ^ 32`: the gateway accepts it, the wire carries 0 and the order
handed to the store has a line item of quantity 0. -/
theorem CreateOrder_quantity_wraps_witness :
    graphql.convertInput exInputBig.Products [] =
        some [{ ProductID := "p1", Quantity := 4294967296 }] ∧
      (Client.protoProducts [{ ProductID := "p1", Quantity := 4294967296 }]).map
          (fun i => i.Quantity) = [0] ∧
      ∃ o, Call.putOrder o ∈
          (Client.PostOrder exEnv exWorld "acct-1"
            [{ ProductID := "p1", Quantity := 4294967296 }]).2.calls ∧
        o.Products.map (fun p => p.Quantity) = [0] := by
  have hvalid : graphql.convertInput exInputBig.Products [] =
      some [{ ProductID := "p1", Quantity := 4294967296 }] := by
    simp [graphql.convertInput, exInputBig]
  have hacc : exEnv.getAccount exWorld.calls exInputBig.AccountID =
      Except.ok { ID := "acct-1", Name := "ann" } := by
    simp [exEnv, exInputBig]
  have hprod : lookupAnswers exEnv (exWorld.calls ++ [Call.getAccount exInputBig.AccountID])
      (Client.protoProducts [{ ProductID := "p1", Quantity := 4294967296 }]) =
      [exP1].map Except.ok := by
    simp [lookupAnswers, exEnv, Client.protoProducts]
  obtain ⟨h1, ⟨o, h2, h3⟩, _⟩ := CreateOrder_quantity_wraps exEnv exWorld exInputBig _ _ [exP1]
    hvalid hacc hprod (Faults.clean_none _)
  refine ⟨hvalid, ?_, o, h2, ?_⟩
  · rw [h1]
    simp [exInputBig, toUint32]
  · rw [h3]
    simp [exInputBig]

end order

end DistriShop
